import Mathlib

/-!
Verification development for the `batsim-prj` schedulers.

The repository contains several Batsim external decision components:

* `src/unnamed/part_000` — power-capped EASY backfilling ("easy_backfill");
* `src/unnamed/part_001` — parallel FCFS with a start-time prediction
  ("parallel_fcfs");
* `src/src/EnergyBud_IDLE.cpp` — three concatenated variants:
  the "EnergyBud" energy-budget scheduler (first part), the
  "reducePC_IDLE" scheduler (second part, 600 s budget period), and the
  "reducePC_IDLE" deadlock-prevention scheduler (third part,
  `budget_end_time = 30`).

All numeric state of the sources (C++ `double`) is modelled with exact
rational arithmetic `ℚ`; container state (`std::set<uint32_t>`,
`std::list`, `std::map`) with `Finset ℕ` and `List`.  Simulation traces
are modelled as lists of ticks, each tick carrying its timestamp and the
batch of events delivered by the simulator.
-/

namespace BatsimPrj

/-- A job as the schedulers keep it: an id, a host request and an
estimated walltime (seconds).  Mirrors `struct SchedJob` of the sources
(the fields the embedded functions read). -/
structure SchedJob where
  job_id : String
  nb_hosts : ℕ
  walltime : ℚ
deriving DecidableEq, Repr

/-- Estimated power of a computing processor in watts
(`P_comp_est = 203.12`, also `power_per_host` of the EnergyBud part and
`P_COMP_M` of part_000). -/
def P_comp_est : ℚ := 203.12

/-- Estimated power of an idle processor in watts (`P_idle_est = 100.00`,
also `idle_power_per_host` of the EnergyBud part and `P_IDLE_M` of
part_000). -/
def P_idle_est : ℚ := 100

namespace ReducePCIdle

/-!
Embedding of the third part of `src/src/EnergyBud_IDLE.cpp`
(the "reducePC_IDLE" deadlock-prevention variant, lines 920-1837).
-/

/-- `estimate_job_energy`: `nb_hosts * P_comp_est * walltime`. -/
def estimate_job_energy (job : SchedJob) : ℚ :=
  (job.nb_hosts : ℚ) * P_comp_est * job.walltime

/-- The global state read by the embedded functions of this variant.
`running` holds, for every running job, its `nb_hosts` and its
`expected_end_time`; `jobs` is the wait queue. -/
structure RState where
  energy_budget_active : Bool
  budget_start_time : ℚ
  budget_end_time : ℚ
  energy_rate : ℚ
  reduced_energy_rate : ℚ
  reservation_end_time : ℚ
  has_active_reservation : Bool
  available_energy : ℚ
  consecutive_scheduling_failures : ℕ
  max_failures_before_override : ℕ
  emergency_mode : Bool
  running : List (ℕ × ℚ)
  jobs : List SchedJob
deriving DecidableEq, Repr

/-- `calculate_energy_lookahead`: energy that running jobs ending within
`horizon` would still have consumed (`nb_hosts * P_comp_est *
(expected_end_time - current_time)`, summed). -/
def calculate_energy_lookahead (running : List (ℕ × ℚ)) (current_time horizon : ℚ) : ℚ :=
  running.foldr
    (fun p acc =>
      if p.2 ≤ current_time + horizon then acc + (p.1 : ℚ) * P_comp_est * (p.2 - current_time)
      else acc)
    0

/-- `has_enough_energy` of the deadlock-prevention variant
(lines 1327-1359): true outside the budget window or after repeated
scheduling failures; otherwise a lookahead-adjusted comparison of the
job's estimated energy against the available energy (tripled allowance
in emergency mode). -/
def has_enough_energy (s : RState) (job : SchedJob) (current_time : ℚ) : Bool :=
  if s.energy_budget_active = false ∨ current_time < s.budget_start_time ∨
      s.budget_end_time < current_time then
    true
  else if s.max_failures_before_override ≤ s.consecutive_scheduling_failures then
    true
  else
    let job_energy := estimate_job_energy job
    let lookahead_horizon := min 5 (job.walltime / 2)
    let future_energy := calculate_energy_lookahead s.running current_time lookahead_horizon
    let adjusted_available := s.available_energy + future_energy
    if s.emergency_mode = true then
      decide (job_energy ≤ adjusted_available * 3)
    else
      decide (job_energy ≤ adjusted_available)

/-- `reserve_energy_reducePC` of the deadlock-prevention variant
(lines 1362-1401).  Outside the budget window nothing happens.  With
`time_until_start = start_time - current_time > 0` the replenishment
rate is reduced to `max (min_rate_factor * energy_rate, energy_rate -
job_energy / time_until_start)`, where `min_rate_factor` is `0.5` when
more than `⌊|jobs| / 3⌋` waiting jobs other than the pivot have
estimated energy below half the pivot's, and `0.3` otherwise.  (The
source compares `waiting_job != job`, a pointer comparison; with unique
job ids this is the id comparison used here.) -/
def reserve_energy_reducePC (s : RState) (job : SchedJob) (start_time current_time : ℚ) :
    RState :=
  if s.energy_budget_active = false ∨ current_time < s.budget_start_time ∨
      s.budget_end_time < current_time then
    s
  else
    let job_energy := estimate_job_energy job
    let time_until_start := start_time - current_time
    if 0 < time_until_start then
      let energy_rate_reduction := job_energy / time_until_start
      let small_jobs :=
        (s.jobs.filter
          (fun wj => wj.job_id ≠ job.job_id ∧ estimate_job_energy wj < job_energy * (1/2))).length
      let min_rate_factor : ℚ := if s.jobs.length / 3 < small_jobs then 1/2 else 3/10
      let min_rate := s.energy_rate * min_rate_factor
      { s with
        reduced_energy_rate := max min_rate (s.energy_rate - energy_rate_reduction)
        reservation_end_time := start_time
        has_active_reservation := true }
    else
      s

end ReducePCIdle

namespace ReducePC

/-!
Embedding of the second part of `src/src/EnergyBud_IDLE.cpp`
(the "reducePC_IDLE" scheduler with a 600 s budget period,
lines 308-919).
-/

/-- The global state read by `update_available_energy` and
`has_enough_energy` of this variant.  `sum_running_nb_hosts` is
`Σ job.nb_hosts` over `running_jobs`; `used_hosts_count` the number of
`true` entries of `host_used`. -/
structure BState where
  energy_budget_active : Bool
  budget_start_time : ℚ
  budget_end_time : ℚ
  last_update_time : ℚ
  available_energy : ℚ
  consumed_energy : ℚ
  energy_rate : ℚ
  reduced_energy_rate : ℚ
  reservation_end_time : ℚ
  has_active_reservation : Bool
  platform_nb_hosts : ℕ
  sum_running_nb_hosts : ℕ
  used_hosts_count : ℕ
deriving DecidableEq, Repr

/-- `update_available_energy` (lines 492-530).  Inside the budget window
it adds the drawn energy (running jobs at `P_comp_est`, idle hosts at
`P_idle_est`, in watt·seconds) to `consumed_energy`, adds
`reduced_energy_rate * elapsed` to `available_energy` when `elapsed >
0`, and restores the nominal rate when the reservation has ended;
`available_energy` is never decreased.  `last_update_time` is always set
to `current_time`, except when the whole budget mechanism is off. -/
def update_available_energy (s : BState) (current_time : ℚ) : BState :=
  if s.energy_budget_active = false then s
  else if s.budget_start_time ≤ current_time ∧ current_time ≤ s.budget_end_time then
    let elapsed :=
      if s.last_update_time < s.budget_start_time then current_time - s.budget_start_time
      else current_time - s.last_update_time
    let idle_hosts : ℤ := (s.platform_nb_hosts : ℤ) - (s.used_hosts_count : ℤ)
    let period_energy_consumed :=
      (s.sum_running_nb_hosts : ℚ) * P_comp_est * elapsed + (idle_hosts : ℚ) * P_idle_est * elapsed
    let s1 := { s with consumed_energy := s.consumed_energy + period_energy_consumed }
    let s2 :=
      if 0 < elapsed then
        { s1 with available_energy := s1.available_energy + s1.reduced_energy_rate * elapsed }
      else s1
    let s3 :=
      if s2.reservation_end_time ≤ current_time ∧ s2.has_active_reservation = true then
        { s2 with reduced_energy_rate := s2.energy_rate, has_active_reservation := false }
      else s2
    { s3 with last_update_time := current_time }
  else
    { s with last_update_time := current_time }

/-- `has_enough_energy` of the 600 s variant (lines 533-549): true
outside the budget window, otherwise `estimate_job_energy job ≤
available_energy`. -/
def has_enough_energy (s : BState) (job : SchedJob) (current_time : ℚ) : Bool :=
  if s.energy_budget_active = false ∨ current_time < s.budget_start_time ∨
      s.budget_end_time < current_time then
    true
  else
    decide (ReducePCIdle.estimate_job_energy job ≤ s.available_energy)

/-- The scanning loop of `allocate_hosts_for_job` (lines 575-606; the
third part repeats it verbatim at lines 1405-1436).  `host_used` is the
remaining suffix of the `host_used` vector, `i` the index of its first
cell, `run` the current count of consecutive free cells
(`consecutive_free`), `start` the index where that run began
(`start_host`).  Returns the start index of the allocated block, i.e.
the block is `[start, start + w)`. -/
def allocScan (w : ℕ) : List Bool → ℕ → ℕ → ℕ → Option ℕ
  | [], _, _, _ => none
  | true :: rest, i, _, _ => allocScan w rest (i + 1) 0 0
  | false :: rest, i, run, start =>
    let start2 := if run = 0 then i else start
    if run + 1 = w then some start2
    else allocScan w rest (i + 1) (run + 1) start2

/-- `allocate_hosts_for_job`: finds a contiguous range of `w` free hosts
in the `host_used` vector (entry `true` = in use) and returns its start
index, or `none`.  The `job->nb_hosts > platform_nb_hosts` guard is the
length guard (`host_used` has `platform_nb_hosts` entries). -/
def allocate_hosts_for_job (host_used : List Bool) (w : ℕ) : Option ℕ :=
  if host_used.length < w then none else allocScan w host_used 0 0 0

/-- Number of free hosts of a `host_used` vector. -/
def freeCount (host_used : List Bool) : ℕ := (host_used.filter (fun b => !b)).length

/-- Whether the first `w` cells of `l` exist and are all free. -/
def freeWin : ℕ → List Bool → Bool
  | 0, _ => true
  | _ + 1, [] => false
  | w + 1, b :: t => !b && freeWin w t

/-- Comparison definition for the amended claim C3: the least index `s`
such that hosts `s, …, s + w - 1` all exist and are free — the leftmost
contiguous run of `w` free hosts. -/
def firstFreeWindow (w : ℕ) : List Bool → Option ℕ
  | [] => if freeWin w [] = true then some 0 else none
  | b :: t => if freeWin w (b :: t) = true then some 0 else (firstFreeWindow w t).map (· + 1)

lemma firstFreeWindow_pos {w : ℕ} {l : List Bool} (h : freeWin w l = true) :
    firstFreeWindow w l = some 0 := by
  cases l with
  | nil => simp [firstFreeWindow, h]
  | cons b t => simp [firstFreeWindow, h]

lemma firstFreeWindow_cons_neg {w : ℕ} {b : Bool} {t : List Bool}
    (h : freeWin w (b :: t) = false) :
    firstFreeWindow w (b :: t) = (firstFreeWindow w t).map (· + 1) := by
  simp [firstFreeWindow, h]

lemma freeWin_of_short : ∀ (l : List Bool) (w : ℕ), l.length < w → freeWin w l = false := by
  intro l
  induction l with
  | nil =>
    intro w h
    cases w with
    | zero => simp at h
    | succ k => rfl
  | cons b t ih =>
    intro w h
    cases w with
    | zero => simp at h
    | succ k =>
      simp only [List.length_cons] at h
      simp [freeWin, ih k (by omega)]

lemma firstFreeWindow_of_short (w : ℕ) :
    ∀ l : List Bool, l.length < w → firstFreeWindow w l = none := by
  intro l
  induction l with
  | nil =>
    intro h
    cases w with
    | zero => simp at h
    | succ k => simp [firstFreeWindow, freeWin]
  | cons b t ih =>
    intro h
    rw [firstFreeWindow_cons_neg (freeWin_of_short _ _ h)]
    rw [ih (by simp only [List.length_cons] at h; omega)]
    rfl

lemma replicate_false_append (n : ℕ) (t : List Bool) :
    List.replicate n false ++ false :: t = List.replicate (n + 1) false ++ t := by
  rw [List.replicate_succ']
  simp

lemma freeWin_replicate_true (t : List Bool) :
    ∀ n w, n < w → freeWin w (List.replicate n false ++ true :: t) = false := by
  intro n
  induction n with
  | zero =>
    intro w h
    cases w with
    | zero => omega
    | succ k => simp [freeWin]
  | succ m ih =>
    intro w h
    cases w with
    | zero => omega
    | succ k =>
      simp only [List.replicate_succ, List.cons_append, freeWin, Bool.not_false,
        Bool.true_and]
      exact ih k (by omega)

lemma freeWin_replicate_prefix (t : List Bool) :
    ∀ n, freeWin n (List.replicate n false ++ t) = true := by
  intro n
  induction n with
  | zero => rfl
  | succ m ih => simp [List.replicate_succ, freeWin, ih]

lemma firstFreeWindow_replicate_true (w : ℕ) (t : List Bool) :
    ∀ n, n < w →
      firstFreeWindow w (List.replicate n false ++ true :: t) =
        (firstFreeWindow w t).map (· + (n + 1)) := by
  intro n
  induction n with
  | zero =>
    intro h
    simp only [List.replicate_zero, List.nil_append]
    rw [firstFreeWindow_cons_neg (freeWin_replicate_true t 0 w h)]
  | succ m ih =>
    intro hm
    have hrw : List.replicate (m + 1) false ++ true :: t =
        false :: (List.replicate m false ++ true :: t) := by
      simp [List.replicate_succ]
    have hwin : freeWin w (List.replicate (m + 1) false ++ true :: t) = false :=
      freeWin_replicate_true t (m + 1) w hm
    rw [hrw] at hwin ⊢
    rw [firstFreeWindow_cons_neg hwin, ih (by omega), Option.map_map]
    congr 1

lemma allocScan_eq_firstFreeWindow (w : ℕ) (hw : 0 < w) :
    ∀ (rest : List Bool) (i run start : ℕ), run < w → run ≤ i →
      (run ≠ 0 → start = i - run) →
      allocScan w rest i run start =
        (firstFreeWindow w (List.replicate run false ++ rest)).map (· + (i - run)) := by
  intro rest
  induction rest with
  | nil =>
    intro i run start hrun _ _
    have hlen : (List.replicate run false ++ ([] : List Bool)).length < w := by
      simp only [List.length_append, List.length_replicate, List.length_nil]
      omega
    rw [firstFreeWindow_of_short w _ hlen]
    rfl
  | cons b t ih =>
    intro i run start hrun hri hstart
    cases b with
    | true =>
      show allocScan w t (i + 1) 0 0 = _
      have h1 := ih (i + 1) 0 0 hw (by omega) (fun h => (h rfl).elim)
      simp only [Nat.sub_zero, List.replicate_zero, List.nil_append] at h1
      rw [h1, firstFreeWindow_replicate_true w t run hrun, Option.map_map]
      congr 1
      funext x
      simp only [Function.comp_apply]
      omega
    | false =>
      have hstart2 : (if run = 0 then i else start) = i - run := by
        by_cases h0 : run = 0
        · subst h0
          simp
        · simp [h0, hstart h0]
      show (if run + 1 = w then some (if run = 0 then i else start)
          else allocScan w t (i + 1) (run + 1) (if run = 0 then i else start)) = _
      rw [hstart2]
      by_cases hfull : run + 1 = w
      · rw [if_pos hfull]
        have hwin : freeWin w (List.replicate run false ++ false :: t) = true := by
          rw [replicate_false_append, ← hfull]
          exact freeWin_replicate_prefix t (run + 1)
        rw [firstFreeWindow_pos hwin]
        simp
      · rw [if_neg hfull]
        have h1 := ih (i + 1) (run + 1) (i - run) (by omega) (by omega) (fun _ => by omega)
        have hsub : i + 1 - (run + 1) = i - run := by omega
        rw [hsub] at h1
        rw [h1, replicate_false_append]

/-- `allocate_hosts_for_job` computed in closed form: for a positive
width it returns exactly the leftmost contiguous run of `w` free
hosts. -/
theorem allocate_hosts_for_job_eq (host_used : List Bool) (w : ℕ) (hw : 0 < w) :
    allocate_hosts_for_job host_used w = firstFreeWindow w host_used := by
  unfold allocate_hosts_for_job
  by_cases hlen : host_used.length < w
  · rw [if_pos hlen, firstFreeWindow_of_short w _ hlen]
  · rw [if_neg hlen]
    have h := allocScan_eq_firstFreeWindow w hw host_used 0 0 0 hw (by omega)
      (fun h => (h rfl).elim)
    simp only [Nat.sub_zero, List.replicate_zero, List.nil_append] at h
    rw [h]
    cases firstFreeWindow w host_used with
    | none => rfl
    | some s => simp

end ReducePC

namespace ParallelFCFS

/-!
Embedding of `predict_job_start_time` of `src/unnamed/part_001`
(lines 80-105).  `find_available_resources` succeeds exactly when the
free set has at least the requested cardinality (it walks the ascending
hyphen representation of `available_resources` and takes ids until it
has enough); it is modelled by that cardinality test.  The C++ timeline
is a `std::map<double,int>` whose keys are `current_time` and the
future completion times strictly after it, each mapped to
`available_resources.size()`; iteration is in ascending key order.
-/

/-- Ordered-unique insertion into an ascending list — the effect of a
`std::map` key insertion. -/
def insertKey (x : ℚ) : List ℚ → List ℚ
  | [] => [x]
  | y :: t => if x < y then x :: y :: t else if x = y then y :: t else y :: insertKey x t

/-- The ascending, duplicate-free key list of the timeline map:
`current_time` plus every completion time strictly after it. -/
def timeline_keys (current_time : ℚ) (completions : List ℚ) : List ℚ :=
  (completions.filter (fun c => current_time < c)).foldl
    (fun acc c => insertKey c acc) [current_time]

/-- The timeline loop: `current_resources` starts at the free count and
every entry adds the free count again (`delta` is the stored value,
which is always `available_resources.size()`); the first key reaching
`width` is returned. -/
def timeline_walk (freeCnt width : ℕ) : List ℚ → ℕ → Option ℚ
  | [], _ => none
  | k :: rest, cur =>
    let cur2 := cur + freeCnt
    if width ≤ cur2 then some k else timeline_walk freeCnt width rest cur2

/-- `predict_job_start_time`: `current_time` when enough hosts are free
now, otherwise the timeline walk, falling back to
`current_time + 1e9`. -/
def predict_job_start_time (current_time : ℚ) (freeCnt : ℕ) (completions : List ℚ)
    (width : ℕ) : ℚ :=
  if width ≤ freeCnt then current_time
  else
    (timeline_walk freeCnt width (timeline_keys current_time completions) freeCnt).getD
      (current_time + 1000000000)

/-- Number of hosts free by time `t`: the currently free ones plus the
hosts of running jobs whose projected end is `≤ t`.  (`running` pairs a
projected end time with the job's host count.) -/
def hosts_free_by (freeCnt : ℕ) (running : List (ℚ × ℕ)) (t : ℚ) : ℕ :=
  freeCnt + ((running.filter (fun p => p.1 ≤ t)).map (fun p => p.2)).sum

/-- Comparison definition for claim C9, following the spec's words: the
earliest time `t ≥ now` such that the free hosts together with the
hosts of running jobs whose projected end is `≤ t` number at least
`width`.  Such a `t` is always one of `now` or a later completion time,
scanned in ascending order. -/
def earliest_enough_hosts (current_time : ℚ) (freeCnt : ℕ) (running : List (ℚ × ℕ))
    (width : ℕ) : Option ℚ :=
  (((running.map (fun p => p.1)).filter (fun c => current_time < c)).foldl
      (fun acc c => insertKey c acc) [current_time]).find?
    (fun t => width ≤ hosts_free_by freeCnt running t)

/-- Closed form of the timeline walk: since every timeline entry adds
the free count, the walk returns the `i`-th key (0-based) exactly when
`i` is minimal with `(i + 2) * freeCnt ≥ width`. -/
def char_walk (freeCnt width : ℕ) : List ℚ → ℕ → Option ℚ
  | [], _ => none
  | k :: rest, i => if width ≤ (i + 2) * freeCnt then some k else char_walk freeCnt width rest (i + 1)

lemma timeline_walk_eq_char_walk (freeCnt width : ℕ) :
    ∀ (keys : List ℚ) (i : ℕ),
      timeline_walk freeCnt width keys ((i + 1) * freeCnt) = char_walk freeCnt width keys i := by
  intro keys
  induction keys with
  | nil => intro i; rfl
  | cons k rest ih =>
    intro i
    show (if width ≤ (i + 1) * freeCnt + freeCnt then some k
        else timeline_walk freeCnt width rest ((i + 1) * freeCnt + freeCnt)) = _
    have harith : (i + 1) * freeCnt + freeCnt = (i + 2) * freeCnt := by ring
    rw [harith]
    show _ = (if width ≤ (i + 2) * freeCnt then some k else char_walk freeCnt width rest (i + 1))
    by_cases h : width ≤ (i + 2) * freeCnt
    · rw [if_pos h, if_pos h]
    · rw [if_neg h, if_neg h]
      have h2 : (i + 2) * freeCnt = (i + 1 + 1) * freeCnt := by ring
      rw [h2]
      exact ih (i + 1)

end ParallelFCFS

namespace EnergyBud

/-!
Embedding of the first part of `src/src/EnergyBud_IDLE.cpp`
(the "EnergyBud" scheduler, lines 1-307), as a state machine.  A tick of
`batsim_edc_take_decisions` processes the received events, calls
`update_energy`, and runs the four scheduling phases (eager launch
sweep, head-of-queue handling, backfilling, reserved-job recheck).
A simulation trace is a list of `(now, events)` ticks starting from the
state `SimulationBegins` installs.

`running_jobs` / `job_allocations` (maps keyed by the unique job id) are
modelled as one association list; `available_res` (`std::set<uint32_t>`)
as a `Finset ℕ`, allocation taking its `nb_hosts` smallest elements as
the iteration from `available_res.begin()` does.

The fields `g_seed`, `g_released`, `g_launched` are ghost
instrumentation (not in the source): they record the seed installed by
`update_energy`'s initialisation branch, the energy released since that
branch last ran, and the energy debited by launches since then.  They
are written exactly where the corresponding source lines run and are
never read by the embedded code.
-/

/-- Constants of the EnergyBud part. -/
def max_energy_budget : ℚ := 1500.8

/-- `percentage_budget = 1.0`. -/
def percentage_budget : ℚ := 1

/-- `power_per_host = 203.12` W. -/
def power_per_host : ℚ := 203.12

/-- `idle_power_per_host = 100.0` W. -/
def idle_power_per_host : ℚ := 100

/-- `monitoring_interval = 600.0` s. -/
def monitoring_interval : ℚ := 600

/-- `budget_period_duration = 600.0` s. -/
def budget_period_duration : ℚ := 600

/-- A launch taken during a tick, with the scheduler state observed at
the moment the launch was made: the phase that launched (1 = eager
sweep, 2 = head launch, 3 = backfill, 4 = reserved-job recheck), the
job, the free-host count just before the allocation, and the
reservation state. -/
structure LaunchRec where
  phase : ℕ
  job_id : String
  nb_hosts : ℕ
  walltime : ℚ
  free_before : ℕ
  res_id_at : String
  res_end_at : ℚ
deriving DecidableEq, Repr

/-- The global state of the EnergyBud scheduler. -/
structure AState where
  platform_nb_hosts : ℕ
  available_res : Finset ℕ
  jobs : List SchedJob
  running : List (SchedJob × Finset ℕ)
  energy_budget : ℚ
  energy_consumed : ℚ
  energy_available : ℚ
  last_energy_update_time : ℚ
  budget_start_time : ℚ
  reserved_energy : ℚ
  reserved_time_end : ℚ
  reserved_job_id : String
  g_seed : ℚ
  g_released : ℚ
  g_launched : ℚ
deriving DecidableEq

/-- Events a tick can deliver (after `SimulationBegins`). -/
inductive AEvent where
  | submit (job_id : String) (nb_hosts : ℕ) (walltime : ℚ)
  | complete (job_id : String)
deriving DecidableEq, Repr

/-- The state `SimulationBegins` installs: all hosts free, empty queue
and running map, all energy state at its global initial value
(`energy_budget = max_energy_budget * percentage_budget`). -/
def initA (H : ℕ) : AState :=
  { platform_nb_hosts := H
    available_res := Finset.range H
    jobs := []
    running := []
    energy_budget := max_energy_budget * percentage_budget
    energy_consumed := 0
    energy_available := 0
    last_energy_update_time := 0
    budget_start_time := 0
    reserved_energy := 0
    reserved_time_end := 0
    reserved_job_id := ""
    g_seed := 0
    g_released := 0
    g_launched := 0 }

/-- `update_energy` (lines 84-110).  The first branch (taken while
`budget_start_time == 0.0`) seeds the counter with one monitoring
interval; the second adds the released energy and subtracts the drawn
energy, which is computed with the `elapsed / 3600` factor. -/
def update_energy (s : AState) (current_time : ℚ) : AState :=
  if s.budget_start_time = 0 then
    { s with
      budget_start_time := current_time
      last_energy_update_time := current_time
      energy_budget := max_energy_budget * percentage_budget
      energy_available :=
        max_energy_budget * percentage_budget / budget_period_duration * monitoring_interval
      g_seed := max_energy_budget * percentage_budget / budget_period_duration * monitoring_interval
      g_released := 0
      g_launched := 0 }
  else if current_time - s.last_energy_update_time ≤ 0 then s
  else
    let elapsed := current_time - s.last_energy_update_time
    let energy_released := s.energy_budget / budget_period_duration * elapsed
    let active_hosts : ℚ := (s.platform_nb_hosts : ℚ) - (s.available_res.card : ℚ)
    let estimated_consumption :=
      (active_hosts * power_per_host + (s.available_res.card : ℚ) * idle_power_per_host) *
        (elapsed / 3600)
    { s with
      energy_available := s.energy_available + energy_released - estimated_consumption
      energy_consumed := s.energy_consumed + estimated_consumption
      last_energy_update_time := current_time
      g_released := s.g_released + energy_released }

/-- The energy a launch debits: `nb_hosts * power_per_host *
(walltime / 3600.0)` (`required_energy` of lines 118 and 145). -/
def required_energy (job : SchedJob) : ℚ :=
  (job.nb_hosts : ℚ) * power_per_host * (job.walltime / 3600)

/-- `has_enough_energy` (lines 112-122): the available counter, reduced
by the reserved energy for jobs other than the reserved one, must be
nonnegative and — together with the energy released over the job's own
walltime — cover the job's required energy. -/
def has_enough_energy (s : AState) (job : SchedJob) : Bool :=
  let available :=
    if s.reserved_job_id ≠ job.job_id then s.energy_available - s.reserved_energy
    else s.energy_available
  let required := required_energy job
  let future_available := available + s.energy_budget / budget_period_duration * job.walltime
  decide (required ≤ future_available) && decide (0 ≤ available)

/-- `can_backfill` (lines 124-126). -/
def can_backfill (s : AState) (job : SchedJob) (current_time : ℚ) : Bool :=
  decide (current_time + job.walltime ≤ s.reserved_time_end) || decide (s.reserved_job_id = "")

/-- The `w` smallest elements of a finite set of host ids, taken one
minimum at a time. -/
def takeSmallest : ℕ → Finset ℕ → Finset ℕ
  | 0, _ => ∅
  | w + 1, free =>
    match free.min with
    | none => ∅
    | some m => insert m (takeSmallest w (free.erase m))

/-- The allocation `allocate_and_launch` builds: the `nb_hosts` smallest
free host ids (iteration from `available_res.begin()`). -/
def takeAlloc (free : Finset ℕ) (w : ℕ) : Finset ℕ :=
  takeSmallest w free

/-- `allocate_and_launch` (lines 128-153): abort when fewer free hosts
than requested; otherwise move the `nb_hosts` smallest free hosts to
the job, record it as running, debit `required_energy`, and emit the
execute decision (returned as a `LaunchRec`). -/
def allocate_and_launch (s : AState) (job : SchedJob) (phase : ℕ) :
    AState × Option LaunchRec :=
  if s.available_res.card < job.nb_hosts then (s, none)
  else
    let alloc := takeAlloc s.available_res job.nb_hosts
    ({ s with
        available_res := s.available_res \ alloc
        running := s.running ++ [(job, alloc)]
        energy_available := s.energy_available - required_energy job
        g_launched := s.g_launched + required_energy job },
      some
        { phase := phase
          job_id := job.job_id
          nb_hosts := job.nb_hosts
          walltime := job.walltime
          free_before := s.available_res.card
          res_id_at := s.reserved_job_id
          res_end_at := s.reserved_time_end })

/-- `reserve_for_first_job` (lines 155-161). -/
def reserve_for_first_job (s : AState) (job : SchedJob) (current_time : ℚ) : AState :=
  { s with
    reserved_energy := required_energy job
    reserved_time_end := current_time + job.walltime
    reserved_job_id := job.job_id }

/-- `cancel_reservations` (lines 163-171): a no-op when no reservation
is held. -/
def cancel_reservations (s : AState) : AState :=
  if s.reserved_job_id ≠ "" then
    { s with reserved_energy := 0, reserved_time_end := 0, reserved_job_id := "" }
  else s

/-- The resource-release half of the `JobCompletedEvent` handler
(lines 220-231): a completion of a running job returns its hosts to
`available_res` and drops it from the running map; an unknown id is
ignored. -/
def complete_release (s : AState) (id : String) : AState :=
  match s.running.find? (fun p => p.1.job_id = id) with
  | some p =>
    { s with
      available_res := s.available_res ∪ p.2
      running := s.running.filter (fun q => q.1.job_id ≠ id) }
  | none => s

/-- Event ingestion (lines 202-236).  A submission wider than the
platform is rejected (not enqueued); a completion releases resources
and, when it names the reserved job id, cancels the reservation
(lines 232-235). -/
def handle_event (s : AState) (e : AEvent) : AState :=
  match e with
  | .submit id w wt =>
    if s.platform_nb_hosts < w then s
    else { s with jobs := s.jobs ++ [{ job_id := id, nb_hosts := w, walltime := wt }] }
  | .complete id =>
    let s1 := complete_release s id
    if id = s1.reserved_job_id then cancel_reservations s1 else s1

/-- Phase 1 (lines 244-254), the eager launch sweep: walk the queue in
order and launch every job with enough free hosts and enough energy.
Returns the final state, the remaining queue and the launches made. -/
def phase1 : AState → List SchedJob → AState × List SchedJob × List LaunchRec
  | s, [] => (s, [], [])
  | s, j :: rest =>
    if j.nb_hosts ≤ s.available_res.card ∧ has_enough_energy s j = true then
      let p := allocate_and_launch s j 1
      let q := phase1 p.1 rest
      (q.1, q.2.1, p.2.toList ++ q.2.2)
    else
      let q := phase1 s rest
      (q.1, j :: q.2.1, q.2.2)

/-- Phase 2 (lines 256-268): when no reservation is held, launch the
head of the queue if possible, else install a reservation for it. -/
def phase2 (s : AState) (current_time : ℚ) : AState × List LaunchRec :=
  if s.reserved_job_id = "" then
    match s.jobs with
    | [] => (s, [])
    | j :: rest =>
      if j.nb_hosts ≤ s.available_res.card ∧ has_enough_energy s j = true then
        let p := allocate_and_launch { s with jobs := rest } j 2
        (p.1, p.2.toList)
      else
        (reserve_for_first_job s j current_time, [])
  else (s, [])

/-- Phase 3 body (lines 270-285), run only while a reservation is held:
backfill every queued job other than the reserved one that has hosts,
energy and fits before the reservation end. -/
def phase3 (current_time : ℚ) : AState → List SchedJob → AState × List SchedJob × List LaunchRec
  | s, [] => (s, [], [])
  | s, j :: rest =>
    if j.job_id ≠ s.reserved_job_id ∧ j.nb_hosts ≤ s.available_res.card ∧
        has_enough_energy s j = true ∧ can_backfill s j current_time = true then
      let p := allocate_and_launch s j 3
      let q := phase3 current_time p.1 rest
      (q.1, q.2.1, p.2.toList ++ q.2.2)
    else
      let q := phase3 current_time s rest
      (q.1, j :: q.2.1, q.2.2)

/-- Phase 4 (lines 287-297): if the reserved job is at the head of the
queue and can now run, launch it and cancel the reservation. -/
def phase4 (s : AState) : AState × List LaunchRec :=
  if s.reserved_job_id ≠ "" then
    match s.jobs with
    | [] => (s, [])
    | j :: rest =>
      if j.job_id = s.reserved_job_id ∧ j.nb_hosts ≤ s.available_res.card ∧
          has_enough_energy s j = true then
        let p := allocate_and_launch { s with jobs := rest } j 4
        (cancel_reservations p.1, p.2.toList)
      else (s, [])
  else (s, [])

/-- One call of `batsim_edc_take_decisions`: ingest the events, update
the energy state, then run the four scheduling phases.  Returns the new
state and the launches emitted. -/
def tickA (s : AState) (current_time : ℚ) (events : List AEvent) : AState × List LaunchRec :=
  let s0 := events.foldl handle_event s
  let s1 := update_energy s0 current_time
  let p1 := phase1 s1 s1.jobs
  let s2 := { p1.1 with jobs := p1.2.1 }
  let p2 := phase2 s2 current_time
  let s3 := p2.1
  let p3 :=
    if s3.reserved_job_id ≠ "" then
      let q := phase3 current_time s3 s3.jobs
      ({ q.1 with jobs := q.2.1 }, q.2.2)
    else (s3, ([] : List LaunchRec))
  let s4 := p3.1
  let p4 := phase4 s4
  (p4.1, p1.2.2 ++ p2.2 ++ p3.2 ++ p4.2)

/-- Run a trace of ticks. -/
def runTraceA (s : AState) : List (ℚ × List AEvent) → AState
  | [] => s
  | (now, evs) :: rest => runTraceA (tickA s now evs).1 rest

/-- The job ids submitted by a list of events, in order. -/
def subIds (events : List AEvent) : List String :=
  events.foldr
    (fun e acc =>
      match e with
      | .submit id _ _ => id :: acc
      | .complete _ => acc)
    []

/-- All job ids submitted along a trace, in order. -/
def traceSubIds (trace : List (ℚ × List AEvent)) : List String :=
  (trace.map (fun p => subIds p.2)).flatten

/-!
Invariants of the EnergyBud machine.  `blocks s` lists the free-host
set followed by the allocations of the running jobs; the partition
invariant states that these blocks are pairwise disjoint and cover
`{0, …, H-1}`.
-/

/-- The free-host set followed by the allocations of all running
jobs. -/
def blocks (s : AState) : List (Finset ℕ) :=
  s.available_res :: s.running.map (fun p => p.2)

/-- Union of a list of host sets. -/
def unionL (l : List (Finset ℕ)) : Finset ℕ := l.foldr (· ∪ ·) ∅

/-- The partition invariant of claim C1: the free-host set and the
running allocations are pairwise disjoint and together equal
`{0, …, H-1}`. -/
def PartInv (s : AState) : Prop :=
  (blocks s).Pairwise (fun a b => a ∩ b = ∅) ∧
  unionL (blocks s) = Finset.range s.platform_nb_hosts

/-- Ids of the running jobs. -/
def runningIds (s : AState) : List String := s.running.map (fun p => p.1.job_id)

/-- Ids of a queue. -/
def queueIdsOf (q : List SchedJob) : List String := q.map (fun j => j.job_id)

/-- The inductive invariant: the partition invariant plus id
bookkeeping — running ids and queue ids are duplicate-free and
disjoint, and both only contain ids submitted so far (`seen`). -/
def GoodSt (s : AState) (q : List SchedJob) (seen : List String) : Prop :=
  PartInv s ∧ (runningIds s).Nodup ∧ (queueIdsOf q).Nodup ∧
  (∀ i ∈ queueIdsOf q, i ∉ runningIds s) ∧
  (∀ i ∈ queueIdsOf q, i ∈ seen) ∧ (∀ i ∈ runningIds s, i ∈ seen)

/-- The tick-level invariant. -/
def Inv (s : AState) (seen : List String) : Prop := GoodSt s s.jobs seen

lemma interEmpty_symm : Symmetric (fun a b : Finset ℕ => a ∩ b = ∅) := by
  intro a b h
  rwa [Finset.inter_comm]

lemma unionL_cons (a : Finset ℕ) (l : List (Finset ℕ)) : unionL (a :: l) = a ∪ unionL l := rfl

lemma unionL_append (l : List (Finset ℕ)) (a : Finset ℕ) :
    unionL (l ++ [a]) = unionL l ∪ a := by
  induction l with
  | nil => simp [unionL]
  | cons b t ih =>
    simp only [List.cons_append, unionL_cons, ih]
    rw [Finset.union_assoc]

lemma unionL_perm {l₁ l₂ : List (Finset ℕ)} (h : l₁.Perm l₂) : unionL l₁ = unionL l₂ := by
  induction h with
  | nil => rfl
  | cons a _ ih => simp only [unionL_cons, ih]
  | swap a b l =>
    simp only [unionL_cons]
    rw [← Finset.union_assoc, ← Finset.union_assoc, Finset.union_comm b a]
  | trans _ _ ih₁ ih₂ => rw [ih₁, ih₂]

lemma inter_empty_of_subset {a b c : Finset ℕ} (h : a ⊆ b) (hb : b ∩ c = ∅) :
    a ∩ c = ∅ := by
  have : a ∩ c ⊆ b ∩ c := Finset.inter_subset_inter h (Finset.Subset.refl c)
  rw [hb] at this
  exact Finset.subset_empty.mp this

lemma sdiff_inter_empty (a b : Finset ℕ) : (a \ b) ∩ b = ∅ := by
  ext x
  simp only [Finset.mem_inter, Finset.mem_sdiff, Finset.not_mem_empty, iff_false]
  tauto

lemma takeSmallest_subset : ∀ (w : ℕ) (f : Finset ℕ), takeSmallest w f ⊆ f := by
  intro w
  induction w with
  | zero =>
    intro f x hx
    simp [takeSmallest] at hx
  | succ n ih =>
    intro f x hx
    rw [takeSmallest] at hx
    cases hmin : f.min with
    | top =>
      rw [hmin] at hx
      simp at hx
    | coe m =>
      rw [hmin] at hx
      rw [Finset.mem_insert] at hx
      rcases hx with hx | hx
      · subst hx
        exact Finset.mem_of_min hmin
      · exact (Finset.erase_subset m f) (ih (f.erase m) hx)

lemma takeAlloc_subset (f : Finset ℕ) (w : ℕ) : takeAlloc f w ⊆ f :=
  takeSmallest_subset w f

/-- Partition invariant through a successful allocation: moving a
subset of the free set into a new running block. -/
lemma PartInv_launch {s : AState} (j : SchedJob) (ph : ℕ) (hP : PartInv s)
    (hle : j.nb_hosts ≤ s.available_res.card) :
    PartInv (allocate_and_launch s j ph).1 := by
  unfold allocate_and_launch
  rw [if_neg (by omega)]
  obtain ⟨hpair, hunion⟩ := hP
  have hsub : takeAlloc s.available_res j.nb_hosts ⊆ s.available_res :=
    takeAlloc_subset _ _
  set alloc := takeAlloc s.available_res j.nb_hosts with halloc
  constructor
  · -- pairwise disjointness
    simp only [blocks, List.map_append, List.map_cons, List.map_nil]
    rw [List.pairwise_cons]
    rw [blocks, List.pairwise_cons] at hpair
    obtain ⟨hfree, hallocs⟩ := hpair
    constructor
    · intro b hb
      rcases List.mem_append.mp hb with hb | hb
      · exact inter_empty_of_subset Finset.sdiff_subset (hfree b hb)
      · simp only [List.mem_singleton] at hb
        subst hb
        exact sdiff_inter_empty _ _
    · rw [List.pairwise_append]
      refine ⟨hallocs, List.pairwise_singleton _ _, ?_⟩
      intro a ha b hb
      simp only [List.mem_singleton] at hb
      subst hb
      have h1 : s.available_res ∩ a = ∅ := hfree a ha
      exact interEmpty_symm (inter_empty_of_subset hsub h1)
  · -- union
    simp only [blocks, List.map_append, List.map_cons, List.map_nil]
    rw [blocks] at hunion
    rw [unionL_cons] at hunion ⊢
    rw [unionL_append]
    have hre : s.available_res \ alloc ∪ (unionL (List.map (fun p => p.2) s.running) ∪ alloc) =
        s.available_res ∪ unionL (List.map (fun p => p.2) s.running) := by
      rw [Finset.union_comm (unionL (List.map (fun p => p.2) s.running)) alloc,
        ← Finset.union_assoc, Finset.sdiff_union_of_subset hsub]
    rw [hre]
    exact hunion

lemma allocate_and_launch_fields (s : AState) (j : SchedJob) (ph : ℕ) :
    (allocate_and_launch s j ph).1.jobs = s.jobs ∧
    (allocate_and_launch s j ph).1.reserved_job_id = s.reserved_job_id ∧
    (allocate_and_launch s j ph).1.platform_nb_hosts = s.platform_nb_hosts ∧
    (allocate_and_launch s j ph).1.budget_start_time = s.budget_start_time ∧
    (allocate_and_launch s j ph).1.energy_consumed = s.energy_consumed := by
  unfold allocate_and_launch
  split
  · exact ⟨rfl, rfl, rfl, rfl, rfl⟩
  · exact ⟨rfl, rfl, rfl, rfl, rfl⟩

lemma allocate_and_launch_runningIds (s : AState) (j : SchedJob) (ph : ℕ)
    (hle : j.nb_hosts ≤ s.available_res.card) :
    runningIds (allocate_and_launch s j ph).1 = runningIds s ++ [j.job_id] := by
  unfold allocate_and_launch
  rw [if_neg (by omega)]
  simp [runningIds]

lemma update_energy_shape (s : AState) (t : ℚ) :
    (update_energy s t).available_res = s.available_res ∧
    (update_energy s t).running = s.running ∧
    (update_energy s t).jobs = s.jobs ∧
    (update_energy s t).platform_nb_hosts = s.platform_nb_hosts ∧
    (update_energy s t).reserved_job_id = s.reserved_job_id := by
  unfold update_energy
  split
  · exact ⟨rfl, rfl, rfl, rfl, rfl⟩
  · split
    · exact ⟨rfl, rfl, rfl, rfl, rfl⟩
    · exact ⟨rfl, rfl, rfl, rfl, rfl⟩

lemma cancel_reservations_shape (s : AState) :
    (cancel_reservations s).available_res = s.available_res ∧
    (cancel_reservations s).running = s.running ∧
    (cancel_reservations s).jobs = s.jobs ∧
    (cancel_reservations s).platform_nb_hosts = s.platform_nb_hosts ∧
    (cancel_reservations s).energy_available = s.energy_available ∧
    (cancel_reservations s).energy_consumed = s.energy_consumed ∧
    (cancel_reservations s).budget_start_time = s.budget_start_time ∧
    (cancel_reservations s).g_seed = s.g_seed ∧
    (cancel_reservations s).g_released = s.g_released ∧
    (cancel_reservations s).g_launched = s.g_launched := by
  unfold cancel_reservations
  split
  · exact ⟨rfl, rfl, rfl, rfl, rfl, rfl, rfl, rfl, rfl, rfl⟩
  · exact ⟨rfl, rfl, rfl, rfl, rfl, rfl, rfl, rfl, rfl, rfl⟩

lemma nodup_append_singleton {l : List String} {a : String} (hl : l.Nodup) (ha : a ∉ l) :
    (l ++ [a]).Nodup := by
  rw [List.nodup_append]
  refine ⟨hl, List.nodup_singleton a, ?_⟩
  intro x hx hmem
  simp only [List.mem_singleton] at hmem
  subst hmem
  exact ha hx

lemma find_filter_perm {l : List (SchedJob × Finset ℕ)} {id : String}
    (hN : (l.map (fun p => p.1.job_id)).Nodup) {p : SchedJob × Finset ℕ}
    (hfind : l.find? (fun q => q.1.job_id = id) = some p) :
    l.Perm (p :: l.filter (fun q => q.1.job_id ≠ id)) := by
  induction l with
  | nil => simp at hfind
  | cons hd t ih =>
    simp only [List.map_cons, List.nodup_cons] at hN
    by_cases hph : hd.1.job_id = id
    · rw [List.find?_cons_of_pos _ (by simp [hph])] at hfind
      have hp : p = hd := by
        have := hfind
        simp only [Option.some.injEq] at this
        exact this.symm
      subst hp
      have hfilter_tail : t.filter (fun q => q.1.job_id ≠ id) = t := by
        apply List.filter_eq_self.mpr
        intro q hq
        simp only [decide_eq_true_eq]
        intro hqid
        exact hN.1 (by rw [hph, ← hqid]; exact List.mem_map_of_mem _ hq)
      rw [List.filter_cons, if_neg (by simp [hph]), hfilter_tail]
    · rw [List.find?_cons_of_neg _ (by simp [hph])] at hfind
      have hperm := ih hN.2 hfind
      rw [List.filter_cons, if_pos (by simp [hph])]
      exact (hperm.cons hd).trans (List.Perm.swap p hd _)

lemma complete_release_pack (s : AState) (id : String) (hP : PartInv s)
    (hN : (runningIds s).Nodup) :
    PartInv (complete_release s id) ∧
    (runningIds (complete_release s id)).Nodup ∧
    (∀ i ∈ runningIds (complete_release s id), i ∈ runningIds s) ∧
    (complete_release s id).jobs = s.jobs ∧
    (complete_release s id).platform_nb_hosts = s.platform_nb_hosts := by
  cases hfind : s.running.find? (fun q => q.1.job_id = id) with
  | none =>
    have hrel : complete_release s id = s := by
      unfold complete_release
      rw [hfind]
    rw [hrel]
    exact ⟨hP, hN, fun i hi => hi, rfl, rfl⟩
  | some p =>
    have hrel : complete_release s id =
        { s with
          available_res := s.available_res ∪ p.2
          running := s.running.filter (fun q => q.1.job_id ≠ id) } := by
      unfold complete_release
      rw [hfind]
    rw [hrel]
    have hperm := find_filter_perm hN hfind
    have hmapperm : (s.running.map (fun q => q.2)).Perm
        (p.2 :: (s.running.filter (fun q => q.1.job_id ≠ id)).map (fun q => q.2)) := by
      have := hperm.map (fun q => q.2)
      simpa using this
    refine ⟨?_, ?_, ?_, rfl, rfl⟩
    · obtain ⟨hpair, hunion⟩ := hP
      have hpair2 : (s.available_res :: p.2 ::
          (s.running.filter (fun q => q.1.job_id ≠ id)).map (fun q => q.2)).Pairwise
          (fun a b => a ∩ b = ∅) := by
        refine (List.Perm.pairwise_iff (fun {a b} hab => interEmpty_symm hab) ?_).mp hpair
        exact hmapperm.cons s.available_res
      rw [List.pairwise_cons] at hpair2
      obtain ⟨hfree, hrest⟩ := hpair2
      rw [List.pairwise_cons] at hrest
      obtain ⟨hp2, htail⟩ := hrest
      constructor
      · show (_ :: _).Pairwise _
        rw [List.pairwise_cons]
        constructor
        · intro a ha
          rw [Finset.union_inter_distrib_right]
          rw [hfree a (List.mem_cons_of_mem _ ha), hp2 a ha]
          simp
        · exact htail
      · show unionL (_ :: _) = _
        rw [unionL_cons]
        have hu : unionL (s.running.map (fun q => q.2)) =
            p.2 ∪ unionL ((s.running.filter (fun q => q.1.job_id ≠ id)).map (fun q => q.2)) := by
          rw [unionL_perm hmapperm, unionL_cons]
        rw [blocks, unionL_cons, hu, ← Finset.union_assoc] at hunion
        exact hunion
    · show ((s.running.filter (fun q => q.1.job_id ≠ id)).map
          (fun q : SchedJob × Finset ℕ => q.1.job_id)).Nodup
      have hsubl : ((s.running.filter (fun q => q.1.job_id ≠ id)).map
          (fun q : SchedJob × Finset ℕ => q.1.job_id)).Sublist
          (s.running.map (fun q : SchedJob × Finset ℕ => q.1.job_id)) :=
        (List.filter_sublist s.running).map (fun q : SchedJob × Finset ℕ => q.1.job_id)
      exact List.Nodup.sublist hsubl hN
    · intro i hi
      have hi' : i ∈ (s.running.filter (fun q => q.1.job_id ≠ id)).map
          (fun q : SchedJob × Finset ℕ => q.1.job_id) := hi
      have hsubl : ((s.running.filter (fun q => q.1.job_id ≠ id)).map
          (fun q : SchedJob × Finset ℕ => q.1.job_id)).Sublist
          (s.running.map (fun q : SchedJob × Finset ℕ => q.1.job_id)) :=
        (List.filter_sublist s.running).map (fun q : SchedJob × Finset ℕ => q.1.job_id)
      exact hsubl.subset hi'

lemma handle_complete_pack (s : AState) (id : String) (hP : PartInv s)
    (hN : (runningIds s).Nodup) :
    PartInv (handle_event s (.complete id)) ∧
    (runningIds (handle_event s (.complete id))).Nodup ∧
    (∀ i ∈ runningIds (handle_event s (.complete id)), i ∈ runningIds s) ∧
    (handle_event s (.complete id)).jobs = s.jobs ∧
    (handle_event s (.complete id)).platform_nb_hosts = s.platform_nb_hosts := by
  obtain ⟨hP1, hN1, hsub1, hj1, hh1⟩ := complete_release_pack s id hP hN
  have hgoal : handle_event s (.complete id) =
      (if id = (complete_release s id).reserved_job_id then
        cancel_reservations (complete_release s id) else complete_release s id) := rfl
  rw [hgoal]
  split
  · obtain ⟨c1, c2, c3, c4, -, -, -, -, -, -⟩ := cancel_reservations_shape (complete_release s id)
    have hblocks : blocks (cancel_reservations (complete_release s id)) =
        blocks (complete_release s id) := by
      unfold blocks
      rw [c1, c2]
    refine ⟨?_, ?_, ?_, ?_, ?_⟩
    · unfold PartInv
      rw [hblocks, c4]
      exact hP1
    · unfold runningIds
      rw [c2]
      exact hN1
    · unfold runningIds
      rw [c2]
      exact hsub1
    · rw [c3]
      exact hj1
    · rw [c4]
      exact hh1
  · exact ⟨hP1, hN1, hsub1, hj1, hh1⟩

lemma GoodSt_tail {s : AState} {j : SchedJob} {rest : List SchedJob} {seen : List String}
    (hG : GoodSt s (j :: rest) seen) : GoodSt s rest seen := by
  obtain ⟨h1, h2, h3, h4, h5, h6⟩ := hG
  refine ⟨h1, h2, ?_, ?_, ?_, h6⟩
  · exact (List.nodup_cons.mp h3).2
  · intro i hi
    exact h4 i (by simp [queueIdsOf] at hi ⊢; tauto)
  · intro i hi
    exact h5 i (by simp [queueIdsOf] at hi ⊢; tauto)

lemma GoodSt_launch {s : AState} {j : SchedJob} {rest : List SchedJob} {seen : List String}
    (ph : ℕ) (hG : GoodSt s (j :: rest) seen) (hle : j.nb_hosts ≤ s.available_res.card) :
    GoodSt (allocate_and_launch s j ph).1 rest seen := by
  obtain ⟨h1, h2, h3, h4, h5, h6⟩ := hG
  have hids : runningIds (allocate_and_launch s j ph).1 = runningIds s ++ [j.job_id] :=
    allocate_and_launch_runningIds s j ph hle
  have hjq : j.job_id ∈ queueIdsOf (j :: rest) := by simp [queueIdsOf]
  have hjnotr : j.job_id ∉ runningIds s := h4 _ hjq
  have hjnotrest : j.job_id ∉ queueIdsOf rest := by
    have := List.nodup_cons.mp h3
    exact this.1
  refine ⟨PartInv_launch j ph h1 hle, ?_, (List.nodup_cons.mp h3).2, ?_, ?_, ?_⟩
  · rw [hids]
    exact nodup_append_singleton h2 hjnotr
  · intro i hi
    rw [hids]
    intro hmem
    rcases List.mem_append.mp hmem with hmem | hmem
    · exact h4 i (by simp [queueIdsOf] at hi ⊢; tauto) hmem
    · simp only [List.mem_singleton] at hmem
      subst hmem
      exact hjnotrest hi
  · intro i hi
    exact h5 i (by simp [queueIdsOf] at hi ⊢; tauto)
  · intro i hi
    rw [hids] at hi
    rcases List.mem_append.mp hi with hi | hi
    · exact h6 i hi
    · simp only [List.mem_singleton] at hi
      subst hi
      exact h5 _ hjq

lemma GoodSt_cons_restore {s s' : AState} {j : SchedJob} {q' rest : List SchedJob}
    {seen : List String} (hG' : GoodSt s' q' seen)
    (hsub_q : ∀ i ∈ queueIdsOf q', i ∈ queueIdsOf rest)
    (hsub_r : ∀ i ∈ runningIds s', i ∈ runningIds s ∨ i ∈ queueIdsOf rest)
    (hG : GoodSt s (j :: rest) seen) : GoodSt s' (j :: q') seen := by
  obtain ⟨g1, g2, g3, g4, g5, g6⟩ := hG'
  obtain ⟨-, -, h3, h4, h5, -⟩ := hG
  have hjq : j.job_id ∈ queueIdsOf (j :: rest) := by simp [queueIdsOf]
  have hjnotrest : j.job_id ∉ queueIdsOf rest := (List.nodup_cons.mp h3).1
  refine ⟨g1, g2, ?_, ?_, ?_, g6⟩
  · show (j.job_id :: queueIdsOf q').Nodup
    rw [List.nodup_cons]
    exact ⟨fun hmem => hjnotrest (hsub_q _ hmem), g3⟩
  · intro i hi hmem
    rcases (by simpa [queueIdsOf] using hi : i = j.job_id ∨ i ∈ queueIdsOf q') with hi | hi
    · subst hi
      rcases hsub_r _ hmem with hr | hr
      · exact h4 _ hjq hr
      · exact hjnotrest hr
    · exact g4 i hi hmem
  · intro i hi
    rcases (by simpa [queueIdsOf] using hi : i = j.job_id ∨ i ∈ queueIdsOf q') with hi | hi
    · subst hi
      exact h5 _ hjq
    · exact g5 i hi

lemma GoodSt_mono {s : AState} {q : List SchedJob} {seen seen' : List String}
    (hsub : ∀ i ∈ seen, i ∈ seen') (hG : GoodSt s q seen) : GoodSt s q seen' := by
  obtain ⟨h1, h2, h3, h4, h5, h6⟩ := hG
  exact ⟨h1, h2, h3, h4, fun i hi => hsub i (h5 i hi), fun i hi => hsub i (h6 i hi)⟩

lemma Inv_handle_submit {s : AState} {seen : List String} (id : String) (w : ℕ) (wt : ℚ)
    (hI : Inv s seen) (hfresh : id ∉ seen) :
    Inv (handle_event s (.submit id w wt)) (seen ++ [id]) := by
  obtain ⟨h1, h2, h3, h4, h5, h6⟩ := hI
  have hseen : ∀ i ∈ seen, i ∈ seen ++ [id] := fun i hi => List.mem_append_left _ hi
  have heq : handle_event s (.submit id w wt) =
      if s.platform_nb_hosts < w then s
      else { s with jobs := s.jobs ++ [{ job_id := id, nb_hosts := w, walltime := wt }] } := rfl
  unfold Inv
  rw [heq]
  by_cases hw : s.platform_nb_hosts < w
  · rw [if_pos hw]
    exact GoodSt_mono hseen ⟨h1, h2, h3, h4, h5, h6⟩
  · rw [if_neg hw]
    show GoodSt _ (s.jobs ++ [{ job_id := id, nb_hosts := w, walltime := wt }]) _
    have hqids : queueIdsOf (s.jobs ++ [{ job_id := id, nb_hosts := w, walltime := wt }]) =
        queueIdsOf s.jobs ++ [id] := by
      simp [queueIdsOf]
    refine ⟨h1, h2, ?_, ?_, ?_, ?_⟩
    · rw [hqids]
      exact nodup_append_singleton h3 (fun hmem => hfresh (h5 _ hmem))
    · intro i hi
      rw [hqids] at hi
      rcases List.mem_append.mp hi with hi | hi
      · exact h4 i hi
      · simp only [List.mem_singleton] at hi
        subst hi
        intro hmem
        exact hfresh (h6 _ hmem)
    · intro i hi
      rw [hqids] at hi
      rcases List.mem_append.mp hi with hi | hi
      · exact hseen i (h5 i hi)
      · simp only [List.mem_singleton] at hi
        subst hi
        simp
    · intro i hi
      exact hseen i (h6 i hi)

lemma Inv_handle_complete {s : AState} {seen : List String} (id : String)
    (hI : Inv s seen) : Inv (handle_event s (.complete id)) seen := by
  obtain ⟨h1, h2, h3, h4, h5, h6⟩ := hI
  obtain ⟨m1, m2, m3, m4, m5⟩ := handle_complete_pack s id h1 h2
  unfold Inv
  rw [m4]
  exact ⟨m1, m2, h3, fun i hi hmem => h4 i hi (m3 i hmem), h5, fun i hi => h6 i (m3 i hi)⟩

lemma Inv_foldl_events :
    ∀ (evs : List AEvent) (s : AState) (seen : List String), Inv s seen →
      (subIds evs).Nodup →
      (∀ i ∈ subIds evs, i ∉ seen) →
      Inv (evs.foldl handle_event s) (seen ++ subIds evs) := by
  intro evs
  induction evs with
  | nil =>
    intro s seen hI _ _
    have h : seen ++ subIds [] = seen := by simp [subIds]
    rwa [List.foldl_nil, h]
  | cons e rest ih =>
    intro s seen hI hN hfresh
    cases e with
    | submit id w wt =>
      have hids : subIds (AEvent.submit id w wt :: rest) = id :: subIds rest := rfl
      rw [hids] at hfresh hN
      rw [List.nodup_cons] at hN
      have hI1 : Inv (handle_event s (.submit id w wt)) (seen ++ [id]) :=
        Inv_handle_submit id w wt hI (hfresh id (by simp))
      have hfresh1 : ∀ i ∈ subIds rest, i ∉ seen ++ [id] := by
        intro i hi hmem
        rcases List.mem_append.mp hmem with hmem | hmem
        · exact hfresh i (by simp [hi]) hmem
        · simp only [List.mem_singleton] at hmem
          subst hmem
          exact hN.1 hi
      have := ih (handle_event s (.submit id w wt)) (seen ++ [id]) hI1 hN.2 hfresh1
      show Inv (rest.foldl handle_event (handle_event s (.submit id w wt))) _
      rw [hids]
      simpa using this
    | complete id =>
      have hids : subIds (AEvent.complete id :: rest) = subIds rest := rfl
      rw [hids] at hfresh hN
      have hI1 : Inv (handle_event s (.complete id)) seen := Inv_handle_complete id hI
      have := ih (handle_event s (.complete id)) seen hI1 hN hfresh
      show Inv (rest.foldl handle_event (handle_event s (.complete id))) _
      rw [hids]
      exact this

lemma phase1_pack :
    ∀ (q : List SchedJob) (s : AState) (seen : List String), GoodSt s q seen →
      GoodSt (phase1 s q).1 (phase1 s q).2.1 seen ∧
      (∀ i ∈ queueIdsOf (phase1 s q).2.1, i ∈ queueIdsOf q) ∧
      (∀ i ∈ runningIds (phase1 s q).1, i ∈ runningIds s ∨ i ∈ queueIdsOf q) ∧
      (phase1 s q).1.jobs = s.jobs := by
  intro q
  induction q with
  | nil =>
    intro s seen hG
    refine ⟨hG, ?_, fun i hi => Or.inl hi, rfl⟩
    intro i hi
    simp [phase1, queueIdsOf] at hi
  | cons j rest ih =>
    intro s seen hG
    rw [phase1]
    by_cases hc : j.nb_hosts ≤ s.available_res.card ∧ has_enough_energy s j = true
    · rw [if_pos hc]
      have hlaunch : GoodSt (allocate_and_launch s j 1).1 rest seen :=
        GoodSt_launch 1 hG hc.1
      obtain ⟨g1, g2, g3, g4⟩ := ih (allocate_and_launch s j 1).1 seen hlaunch
      have hrids : runningIds (allocate_and_launch s j 1).1 = runningIds s ++ [j.job_id] :=
        allocate_and_launch_runningIds s j 1 hc.1
      refine ⟨g1, ?_, ?_, ?_⟩
      · intro i hi
        have := g2 i hi
        simp only [queueIdsOf, List.map_cons, List.mem_cons]
        right
        exact this
      · intro i hi
        rcases g3 i hi with hr | hq
        · rw [hrids] at hr
          rcases List.mem_append.mp hr with hr | hr
          · exact Or.inl hr
          · simp only [List.mem_singleton] at hr
            subst hr
            exact Or.inr (by simp [queueIdsOf])
        · exact Or.inr (by simp only [queueIdsOf, List.map_cons, List.mem_cons]; right; exact hq)
      · rw [g4, (allocate_and_launch_fields s j 1).1]
    · rw [if_neg hc]
      obtain ⟨g1, g2, g3, g4⟩ := ih s seen (GoodSt_tail hG)
      refine ⟨?_, ?_, ?_, g4⟩
      · exact GoodSt_cons_restore g1 g2 g3 hG
      · intro i hi
        simp only [queueIdsOf, List.map_cons, List.mem_cons] at hi ⊢
        rcases hi with hi | hi
        · exact Or.inl hi
        · exact Or.inr (g2 i hi)
      · intro i hi
        rcases g3 i hi with hr | hq
        · exact Or.inl hr
        · exact Or.inr (by simp only [queueIdsOf, List.map_cons, List.mem_cons]; right; exact hq)

lemma phase3_pack (now : ℚ) :
    ∀ (q : List SchedJob) (s : AState) (seen : List String), GoodSt s q seen →
      GoodSt (phase3 now s q).1 (phase3 now s q).2.1 seen ∧
      (∀ i ∈ queueIdsOf (phase3 now s q).2.1, i ∈ queueIdsOf q) ∧
      (∀ i ∈ runningIds (phase3 now s q).1, i ∈ runningIds s ∨ i ∈ queueIdsOf q) ∧
      (phase3 now s q).1.jobs = s.jobs := by
  intro q
  induction q with
  | nil =>
    intro s seen hG
    refine ⟨hG, ?_, fun i hi => Or.inl hi, rfl⟩
    intro i hi
    simp [phase3, queueIdsOf] at hi
  | cons j rest ih =>
    intro s seen hG
    rw [phase3]
    by_cases hc : j.job_id ≠ s.reserved_job_id ∧ j.nb_hosts ≤ s.available_res.card ∧
        has_enough_energy s j = true ∧ can_backfill s j now = true
    · rw [if_pos hc]
      have hlaunch : GoodSt (allocate_and_launch s j 3).1 rest seen :=
        GoodSt_launch 3 hG hc.2.1
      obtain ⟨g1, g2, g3, g4⟩ := ih (allocate_and_launch s j 3).1 seen hlaunch
      have hrids : runningIds (allocate_and_launch s j 3).1 = runningIds s ++ [j.job_id] :=
        allocate_and_launch_runningIds s j 3 hc.2.1
      refine ⟨g1, ?_, ?_, ?_⟩
      · intro i hi
        have := g2 i hi
        simp only [queueIdsOf, List.map_cons, List.mem_cons]
        right
        exact this
      · intro i hi
        rcases g3 i hi with hr | hq
        · rw [hrids] at hr
          rcases List.mem_append.mp hr with hr | hr
          · exact Or.inl hr
          · simp only [List.mem_singleton] at hr
            subst hr
            exact Or.inr (by simp [queueIdsOf])
        · exact Or.inr (by simp only [queueIdsOf, List.map_cons, List.mem_cons]; right; exact hq)
      · rw [g4, (allocate_and_launch_fields s j 3).1]
    · rw [if_neg hc]
      obtain ⟨g1, g2, g3, g4⟩ := ih s seen (GoodSt_tail hG)
      refine ⟨?_, ?_, ?_, g4⟩
      · exact GoodSt_cons_restore g1 g2 g3 hG
      · intro i hi
        simp only [queueIdsOf, List.map_cons, List.mem_cons] at hi ⊢
        rcases hi with hi | hi
        · exact Or.inl hi
        · exact Or.inr (g2 i hi)
      · intro i hi
        rcases g3 i hi with hr | hq
        · exact Or.inl hr
        · exact Or.inr (by simp only [queueIdsOf, List.map_cons, List.mem_cons]; right; exact hq)

lemma Inv_set_jobs {s' : AState} {q : List SchedJob} {seen : List String}
    (h : GoodSt s' q seen) : Inv { s' with jobs := q } seen := h

lemma phase2_Inv (s : AState) (now : ℚ) (seen : List String) (hI : Inv s seen) :
    Inv (phase2 s now).1 seen := by
  unfold phase2
  by_cases hres : s.reserved_job_id = ""
  · rw [if_pos hres]
    cases hjobs : s.jobs with
    | nil => exact hI
    | cons j rest =>
      have hG : GoodSt s (j :: rest) seen := by
        have := hI
        unfold Inv at this
        rwa [hjobs] at this
      dsimp only
      by_cases hc : j.nb_hosts ≤ s.available_res.card ∧ has_enough_energy s j = true
      · rw [if_pos hc]
        have hlaunch : GoodSt (allocate_and_launch { s with jobs := rest } j 2).1 rest seen :=
          GoodSt_launch 2 hG hc.1
        have hjeq : (allocate_and_launch { s with jobs := rest } j 2).1.jobs = rest :=
          (allocate_and_launch_fields { s with jobs := rest } j 2).1
        unfold Inv
        rw [hjeq]
        exact hlaunch
      · rw [if_neg hc]
        show GoodSt (reserve_for_first_job s j now) (reserve_for_first_job s j now).jobs seen
        have := hI
        unfold Inv at this
        exact this
  · rw [if_neg hres]
    exact hI

lemma phase4_Inv (s : AState) (seen : List String) (hI : Inv s seen) :
    Inv (phase4 s).1 seen := by
  unfold phase4
  by_cases hres : s.reserved_job_id ≠ ""
  · rw [if_pos hres]
    cases hjobs : s.jobs with
    | nil => exact hI
    | cons j rest =>
      have hG : GoodSt s (j :: rest) seen := by
        have := hI
        unfold Inv at this
        rwa [hjobs] at this
      dsimp only
      by_cases hc : j.job_id = s.reserved_job_id ∧ j.nb_hosts ≤ s.available_res.card ∧
          has_enough_energy s j = true
      · rw [if_pos hc]
        have hlaunch : GoodSt (allocate_and_launch { s with jobs := rest } j 4).1 rest seen :=
          GoodSt_launch 4 hG hc.2.1
        have hjeq : (allocate_and_launch { s with jobs := rest } j 4).1.jobs = rest :=
          (allocate_and_launch_fields { s with jobs := rest } j 4).1
        set X := (allocate_and_launch { s with jobs := rest } j 4).1 with hX
        obtain ⟨c1, c2, c3, c4, -, -, -, -, -, -⟩ := cancel_reservations_shape X
        unfold Inv
        show GoodSt (cancel_reservations X) (cancel_reservations X).jobs seen
        have hGX : GoodSt X X.jobs seen := by
          rw [hjeq]
          exact hlaunch
        obtain ⟨x1, x2, x3, x4, x5, x6⟩ := hGX
        have hblocks : blocks (cancel_reservations X) = blocks X := by
          unfold blocks
          rw [c1, c2]
        refine ⟨?_, ?_, ?_, ?_, ?_, ?_⟩
        · unfold PartInv
          rw [hblocks, c4]
          exact x1
        · unfold runningIds
          rw [c2]
          exact x2
        · rw [c3]
          exact x3
        · unfold runningIds queueIdsOf
          rw [c2, c3]
          exact x4
        · unfold queueIdsOf
          rw [c3]
          exact x5
        · unfold runningIds
          rw [c2]
          exact x6
      · rw [if_neg hc]
        exact hI
  · rw [if_neg hres]
    exact hI

lemma tickA_Inv (s : AState) (now : ℚ) (evs : List AEvent) (seen : List String)
    (hI : Inv s seen) (hN : (subIds evs).Nodup) (hfresh : ∀ i ∈ subIds evs, i ∉ seen) :
    Inv (tickA s now evs).1 (seen ++ subIds evs) := by
  have h0 : Inv (evs.foldl handle_event s) (seen ++ subIds evs) :=
    Inv_foldl_events evs s seen hI hN hfresh
  set seen' := seen ++ subIds evs with hseen'
  set s0 := evs.foldl handle_event s with hs0
  obtain ⟨u1, u2, u3, u4, -⟩ := update_energy_shape s0 now
  have h1 : Inv (update_energy s0 now) seen' := by
    unfold Inv GoodSt PartInv blocks runningIds queueIdsOf at h0 ⊢
    rw [u1, u2, u3, u4]
    exact h0
  set s1 := update_energy s0 now with hs1
  obtain ⟨g1, -, -, -⟩ := phase1_pack s1.jobs s1 seen' h1
  have h2 : Inv { (phase1 s1 s1.jobs).1 with jobs := (phase1 s1 s1.jobs).2.1 } seen' :=
    Inv_set_jobs g1
  set s2 : AState := { (phase1 s1 s1.jobs).1 with jobs := (phase1 s1 s1.jobs).2.1 } with hs2
  have h3 : Inv (phase2 s2 now).1 seen' := phase2_Inv s2 now seen' h2
  set s3 := (phase2 s2 now).1 with hs3
  have h4 : Inv (if s3.reserved_job_id ≠ "" then
      ({ (phase3 now s3 s3.jobs).1 with jobs := (phase3 now s3 s3.jobs).2.1 },
        (phase3 now s3 s3.jobs).2.2)
    else (s3, ([] : List LaunchRec))).1 seen' := by
    split
    · obtain ⟨g3, -, -, -⟩ := phase3_pack now s3.jobs s3 seen' h3
      exact Inv_set_jobs g3
    · exact h3
  exact phase4_Inv _ seen' h4

lemma runTraceA_Inv :
    ∀ (trace : List (ℚ × List AEvent)) (s : AState) (seen : List String),
      Inv s seen → (traceSubIds trace).Nodup →
      (∀ i ∈ traceSubIds trace, i ∉ seen) →
      Inv (runTraceA s trace) (seen ++ traceSubIds trace) := by
  intro trace
  induction trace with
  | nil =>
    intro s seen hI _ _
    have h : seen ++ traceSubIds [] = seen := by simp [traceSubIds]
    rwa [h]
  | cons tk rest ih =>
    intro s seen hI hN hfresh
    obtain ⟨now, evs⟩ := tk
    have hids : traceSubIds ((now, evs) :: rest) = subIds evs ++ traceSubIds rest := by
      simp [traceSubIds]
    rw [hids] at hN hfresh
    rw [List.nodup_append] at hN
    obtain ⟨hN1, hN2, hdisj⟩ := hN
    have h1 : Inv (tickA s now evs).1 (seen ++ subIds evs) :=
      tickA_Inv s now evs seen hI hN1 (fun i hi => hfresh i (List.mem_append_left _ hi))
    have hfresh2 : ∀ i ∈ traceSubIds rest, i ∉ seen ++ subIds evs := by
      intro i hi hmem
      rcases List.mem_append.mp hmem with hmem | hmem
      · exact hfresh i (List.mem_append_right _ hi) hmem
      · exact hdisj hmem hi
    have := ih (tickA s now evs).1 (seen ++ subIds evs) h1 hN2 hfresh2
    show Inv (runTraceA (tickA s now evs).1 rest) _
    rw [hids, ← List.append_assoc]
    exact this

lemma Inv_initA (H : ℕ) : Inv (initA H) [] := by
  unfold Inv GoodSt PartInv blocks runningIds queueIdsOf initA
  dsimp only
  refine ⟨⟨by simp, by simp [unionL]⟩, by simp, by simp, ?_, ?_, ?_⟩
  · intro i hi
    simp at hi
  · intro i hi
    simp at hi
  · intro i hi
    simp at hi

/-!
Energy accounting of the EnergyBud machine.  `EInv` is the amended
conservation law: the sum `energy_consumed + energy_available` equals
the seed installed by `update_energy`'s initialisation branch plus the
energy released since, minus the energy debited by launches since
(`allocate_and_launch` subtracts each launched job's required energy
upfront).
-/

/-- The amended energy-conservation invariant. -/
def EInv (s : AState) : Prop :=
  s.energy_consumed + s.energy_available = s.g_seed + s.g_released - s.g_launched ∧
  (s.budget_start_time = 0 → s.energy_consumed = 0)

lemma EInv_of_shape {s₁ s₂ : AState} (h1 : s₂.energy_consumed = s₁.energy_consumed)
    (h2 : s₂.energy_available = s₁.energy_available) (h3 : s₂.g_seed = s₁.g_seed)
    (h4 : s₂.g_released = s₁.g_released) (h5 : s₂.g_launched = s₁.g_launched)
    (h6 : s₂.budget_start_time = s₁.budget_start_time) (h : EInv s₁) : EInv s₂ := by
  unfold EInv at h ⊢
  rw [h1, h2, h3, h4, h5, h6]
  exact h

lemma EInv_handle_event (s : AState) (e : AEvent) (h : EInv s) :
    EInv (handle_event s e) := by
  cases e with
  | submit id w wt =>
    have heq : handle_event s (.submit id w wt) =
        if s.platform_nb_hosts < w then s
        else { s with jobs := s.jobs ++ [{ job_id := id, nb_hosts := w, walltime := wt }] } := rfl
    rw [heq]
    split
    · exact h
    · exact EInv_of_shape rfl rfl rfl rfl rfl rfl h
  | complete id =>
    have hrel : EInv (complete_release s id) := by
      unfold complete_release
      cases hfind : s.running.find? (fun q => q.1.job_id = id) with
      | none => exact h
      | some p => exact EInv_of_shape rfl rfl rfl rfl rfl rfl h
    have heq : handle_event s (.complete id) =
        (if id = (complete_release s id).reserved_job_id then
          cancel_reservations (complete_release s id) else complete_release s id) := rfl
    rw [heq]
    split
    · obtain ⟨-, -, -, -, c5, c6, c7, c8, c9, c10⟩ :=
        cancel_reservations_shape (complete_release s id)
      exact EInv_of_shape c6 c5 c8 c9 c10 c7 hrel
    · exact hrel

lemma EInv_launch (s : AState) (j : SchedJob) (ph : ℕ) (h : EInv s) :
    EInv (allocate_and_launch s j ph).1 := by
  unfold allocate_and_launch
  split
  · exact h
  · obtain ⟨h1, h2⟩ := h
    constructor
    · show s.energy_consumed + (s.energy_available - required_energy j) =
        s.g_seed + s.g_released - (s.g_launched + required_energy j)
      linarith
    · exact h2

lemma EInv_update_energy (s : AState) (t : ℚ) (h : EInv s) :
    EInv (update_energy s t) := by
  unfold update_energy
  by_cases hb : s.budget_start_time = 0
  · rw [if_pos hb]
    obtain ⟨-, h2⟩ := h
    have hc0 : s.energy_consumed = 0 := h2 hb
    constructor
    · show s.energy_consumed +
          max_energy_budget * percentage_budget / budget_period_duration * monitoring_interval =
        max_energy_budget * percentage_budget / budget_period_duration * monitoring_interval +
          0 - 0
      rw [hc0]
      ring
    · intro _
      exact hc0
  · rw [if_neg hb]
    split
    · exact h
    · obtain ⟨h1, -⟩ := h
      constructor
      · show s.energy_consumed + _ + (s.energy_available + _ - _) =
          s.g_seed + (s.g_released + _) - s.g_launched
        linarith
      · intro hb'
        exact absurd hb' hb

lemma EInv_phase1 : ∀ (q : List SchedJob) (s : AState), EInv s → EInv (phase1 s q).1 := by
  intro q
  induction q with
  | nil => intro s h; exact h
  | cons j rest ih =>
    intro s h
    rw [phase1]
    split
    · exact ih _ (EInv_launch s j 1 h)
    · exact ih _ h

lemma EInv_phase3 (now : ℚ) :
    ∀ (q : List SchedJob) (s : AState), EInv s → EInv (phase3 now s q).1 := by
  intro q
  induction q with
  | nil => intro s h; exact h
  | cons j rest ih =>
    intro s h
    rw [phase3]
    split
    · exact ih _ (EInv_launch s j 3 h)
    · exact ih _ h

lemma EInv_phase2 (s : AState) (now : ℚ) (h : EInv s) : EInv (phase2 s now).1 := by
  unfold phase2
  split
  · cases s.jobs with
    | nil => exact h
    | cons j rest =>
      dsimp only
      split
      · exact EInv_launch { s with jobs := rest } j 2 (EInv_of_shape rfl rfl rfl rfl rfl rfl h)
      · exact EInv_of_shape rfl rfl rfl rfl rfl rfl h
  · exact h

lemma EInv_phase4 (s : AState) (h : EInv s) : EInv (phase4 s).1 := by
  unfold phase4
  split
  · cases s.jobs with
    | nil => exact h
    | cons j rest =>
      dsimp only
      split
      · have hX : EInv (allocate_and_launch { s with jobs := rest } j 4).1 :=
          EInv_launch { s with jobs := rest } j 4 (EInv_of_shape rfl rfl rfl rfl rfl rfl h)
        obtain ⟨-, -, -, -, c5, c6, c7, c8, c9, c10⟩ :=
          cancel_reservations_shape (allocate_and_launch { s with jobs := rest } j 4).1
        exact EInv_of_shape c6 c5 c8 c9 c10 c7 hX
      · exact h
  · exact h

lemma EInv_foldl_events :
    ∀ (evs : List AEvent) (s : AState), EInv s → EInv (evs.foldl handle_event s) := by
  intro evs
  induction evs with
  | nil => intro s h; exact h
  | cons e rest ih => intro s h; exact ih _ (EInv_handle_event s e h)

set_option maxHeartbeats 1000000 in
lemma EInv_tickA (s : AState) (now : ℚ) (evs : List AEvent) (h : EInv s) :
    EInv (tickA s now evs).1 := by
  have h1 : EInv (update_energy (evs.foldl handle_event s) now) :=
    EInv_update_energy _ now (EInv_foldl_events evs s h)
  set s1 := update_energy (evs.foldl handle_event s) now with hs1
  have h2 : EInv { (phase1 s1 s1.jobs).1 with jobs := (phase1 s1 s1.jobs).2.1 } :=
    EInv_of_shape rfl rfl rfl rfl rfl rfl (EInv_phase1 s1.jobs s1 h1)
  set s2 : AState := { (phase1 s1 s1.jobs).1 with jobs := (phase1 s1 s1.jobs).2.1 } with hs2
  have h3 : EInv (phase2 s2 now).1 := EInv_phase2 s2 now h2
  set s3 := (phase2 s2 now).1 with hs3
  have h4 : EInv (if s3.reserved_job_id ≠ "" then
      ({ (phase3 now s3 s3.jobs).1 with jobs := (phase3 now s3 s3.jobs).2.1 },
        (phase3 now s3 s3.jobs).2.2)
    else (s3, ([] : List LaunchRec))).1 := by
    split
    · exact EInv_of_shape rfl rfl rfl rfl rfl rfl (EInv_phase3 now s3.jobs s3 h3)
    · exact h3
  exact EInv_phase4 _ h4

lemma EInv_runTraceA :
    ∀ (trace : List (ℚ × List AEvent)) (s : AState), EInv s → EInv (runTraceA s trace) := by
  intro trace
  induction trace with
  | nil => intro s h; exact h
  | cons tk rest ih =>
    intro s h
    obtain ⟨now, evs⟩ := tk
    exact ih _ (EInv_tickA s now evs h)

lemma EInv_initA (H : ℕ) : EInv (initA H) := by
  constructor
  · show (0 : ℚ) + 0 = 0 + 0 - 0
    ring
  · intro _
    rfl

/-!
Bookkeeping of the launch records a tick emits: which phase produced
each record, and the backfill bound phase 3 enforces.
-/

lemma allocate_rec_fields (s : AState) (j : SchedJob) (ph : ℕ) :
    ∀ r ∈ (allocate_and_launch s j ph).2.toList,
      r.phase = ph ∧ r.walltime = j.walltime ∧ r.res_end_at = s.reserved_time_end ∧
      r.job_id = j.job_id ∧ r.res_id_at = s.reserved_job_id := by
  unfold allocate_and_launch
  split
  · intro r hr
    simp [Option.toList] at hr
  · intro r hr
    simp only [Option.toList, List.mem_singleton] at hr
    subst hr
    exact ⟨rfl, rfl, rfl, rfl, rfl⟩

lemma phase1_rec_phase : ∀ (q : List SchedJob) (s : AState),
    ∀ r ∈ (phase1 s q).2.2, r.phase = 1 := by
  intro q
  induction q with
  | nil =>
    intro s r hr
    simp [phase1] at hr
  | cons j rest ih =>
    intro s r hr
    rw [phase1] at hr
    split at hr
    · simp only [List.mem_append] at hr
      rcases hr with hr | hr
      · exact (allocate_rec_fields s j 1 r hr).1
      · exact ih _ r hr
    · exact ih _ r hr

lemma phase2_rec_phase (s : AState) (now : ℚ) :
    ∀ r ∈ (phase2 s now).2, r.phase = 2 := by
  intro r hr
  unfold phase2 at hr
  split at hr
  · cases hjobs : s.jobs with
    | nil =>
      rw [hjobs] at hr
      simp at hr
    | cons j rest =>
      rw [hjobs] at hr
      dsimp only at hr
      split at hr
      · exact (allocate_rec_fields { s with jobs := rest } j 2 r hr).1
      · simp at hr
  · simp at hr

lemma phase3_rec_bound (now : ℚ) : ∀ (q : List SchedJob) (s : AState),
    s.reserved_job_id ≠ "" →
    ∀ r ∈ (phase3 now s q).2.2, r.phase = 3 ∧ now + r.walltime ≤ r.res_end_at := by
  intro q
  induction q with
  | nil =>
    intro s _ r hr
    simp [phase3] at hr
  | cons j rest ih =>
    intro s hres r hr
    rw [phase3] at hr
    split at hr
    · case isTrue hc =>
      simp only [List.mem_append] at hr
      rcases hr with hr | hr
      · obtain ⟨f1, f2, f3, -, -⟩ := allocate_rec_fields s j 3 r hr
        refine ⟨f1, ?_⟩
        have hcb := hc.2.2.2
        rw [can_backfill, Bool.or_eq_true, decide_eq_true_eq, decide_eq_true_eq] at hcb
        rcases hcb with hcb | hcb
        · rw [f2, f3]
          exact hcb
        · exact absurd hcb hres
      · have hres' : (allocate_and_launch s j 3).1.reserved_job_id ≠ "" := by
          rw [(allocate_and_launch_fields s j 3).2.1]
          exact hres
        exact ih _ hres' r hr
    · exact ih _ hres r hr

lemma phase4_rec_phase (s : AState) :
    ∀ r ∈ (phase4 s).2, r.phase = 4 := by
  intro r hr
  unfold phase4 at hr
  split at hr
  · cases hjobs : s.jobs with
    | nil =>
      rw [hjobs] at hr
      simp at hr
    | cons j rest =>
      rw [hjobs] at hr
      dsimp only at hr
      split at hr
      · exact (allocate_rec_fields { s with jobs := rest } j 4 r hr).1
      · simp at hr
  · simp at hr

/-- The intermediate state of a tick after event ingestion and
`update_energy`. -/
def tickS1 (s : AState) (now : ℚ) (evs : List AEvent) : AState :=
  update_energy (evs.foldl handle_event s) now

/-- The state after phase 1. -/
def tickS2 (s : AState) (now : ℚ) (evs : List AEvent) : AState :=
  { (phase1 (tickS1 s now evs) (tickS1 s now evs).jobs).1 with
    jobs := (phase1 (tickS1 s now evs) (tickS1 s now evs).jobs).2.1 }

/-- The state after phase 2. -/
def tickS3 (s : AState) (now : ℚ) (evs : List AEvent) : AState :=
  (phase2 (tickS2 s now evs) now).1

/-- Phase 3's result (run only while a reservation is held). -/
def tickP3 (s : AState) (now : ℚ) (evs : List AEvent) : AState × List LaunchRec :=
  if (tickS3 s now evs).reserved_job_id ≠ "" then
    ({ (phase3 now (tickS3 s now evs) (tickS3 s now evs).jobs).1 with
        jobs := (phase3 now (tickS3 s now evs) (tickS3 s now evs).jobs).2.1 },
      (phase3 now (tickS3 s now evs) (tickS3 s now evs).jobs).2.2)
  else (tickS3 s now evs, [])

lemma tickA_records (s : AState) (now : ℚ) (evs : List AEvent) :
    (tickA s now evs).2 =
      (phase1 (tickS1 s now evs) (tickS1 s now evs).jobs).2.2 ++
        (phase2 (tickS2 s now evs) now).2 ++ (tickP3 s now evs).2 ++
        (phase4 (tickP3 s now evs).1).2 := rfl

end EnergyBud

namespace PowerCap

/-!
Embedding of `src/unnamed/part_000`, the power-capped EASY-backfilling
scheduler ("easy_backfill").  One tick of `batsim_edc_take_decisions`
processes the events, then runs the scheduling block of lines 146-228:
the head job's guard (`first_job_can_run`, `soon_power`) is computed
first, then the backfill loop launches at most one candidate (it breaks
after a success), and finally the head job is launched if its
previously computed guard held — even though the backfill launch may
have shrunk the free set in between.
-/

/-- `P_IDLE_A = 95` W. -/
def P_IDLE_A : ℚ := 95

/-- `P_COMP_A = 190.74` W. -/
def P_COMP_A : ℚ := 190.74

/-- `P_COMP_M = 203.12` W. -/
def P_COMP_M : ℚ := 203.12

/-- `pourcentage_budget = 1.0`. -/
def pourcentage_budget : ℚ := 1

/-- The global state of the easy_backfill scheduler. -/
structure PState where
  platform_nb_hosts : ℕ
  available_res : Finset ℕ
  jobs : List SchedJob
  running : List (SchedJob × Finset ℕ)
  shadow_time : ℚ
  current_power : ℚ
  power_limit : ℚ
deriving DecidableEq

/-- Events of a tick, including `SimulationBegins`. -/
inductive PEvent where
  | simBegins (host_count : ℕ)
  | submit (job_id : String) (nb_hosts : ℕ) (walltime : ℚ)
  | complete (job_id : String)
deriving DecidableEq, Repr

/-- The pristine state before any event (the module globals at load
time). -/
def initP : PState :=
  { platform_nb_hosts := 0
    available_res := ∅
    jobs := []
    running := []
    shadow_time := 0
    current_power := 0
    power_limit := 0 }

/-- A launch taken during a tick: `first = true` for the head-of-queue
launch of lines 205-227, `first = false` for a backfill launch of
lines 158-202; `free_before` is the free-host count at the moment the
allocation was taken. -/
structure PLaunch where
  first : Bool
  job_id : String
  nb_hosts : ℕ
  walltime : ℚ
  free_before : ℕ
deriving DecidableEq, Repr

/-- The power a launch of `w` hosts adds to `current_power`
(`nb_hosts * (P_COMP_A - P_IDLE_A)`). -/
def job_power_delta (w : ℕ) : ℚ := (w : ℚ) * (P_COMP_A - P_IDLE_A)

/-- Event ingestion (lines 82-143).  `SimulationBegins` inserts the
host ids and sets `current_power` and `power_limit`
(`ENERGY_BUDGET = platform_nb_hosts * P_COMP_M * pourcentage_budget`);
an over-wide submission is rejected; a submission into an empty queue
sets `shadow_time` to its walltime; a completion frees the hosts and
recomputes `current_power` from the host counts. -/
def handle_eventP (s : PState) (e : PEvent) : PState :=
  match e with
  | .simBegins n =>
    { s with
      platform_nb_hosts := n
      available_res := s.available_res ∪ Finset.range n
      current_power := (n : ℚ) * P_IDLE_A
      power_limit := (n : ℚ) * P_COMP_M * pourcentage_budget }
  | .submit id w wt =>
    if s.platform_nb_hosts < w then s
    else
      { s with
        jobs := s.jobs ++ [{ job_id := id, nb_hosts := w, walltime := wt }]
        shadow_time := if s.jobs = [] then wt else s.shadow_time }
  | .complete id =>
    match s.running.find? (fun p => p.1.job_id = id) with
    | some p =>
      let free2 := s.available_res ∪ p.2
      { s with
        available_res := free2
        running := s.running.filter (fun q => q.1.job_id ≠ id)
        current_power :=
          (free2.card : ℚ) * P_IDLE_A +
            ((s.platform_nb_hosts : ℚ) - (free2.card : ℚ)) * P_COMP_A }
    | none => s

/-- The backfill guard of line 161: enough free hosts, walltime within
`shadow_time`, and `backfill_power = current_power + nb_hosts *
(P_COMP_A - P_IDLE_A)` within the power limit. -/
def backfill_guard (s : PState) (j : SchedJob) : Bool :=
  decide (j.nb_hosts ≤ s.available_res.card) && decide (j.walltime ≤ s.shadow_time) &&
    decide (s.current_power + job_power_delta j.nb_hosts ≤ s.power_limit)

/-- The backfill loop of lines 158-202 scans the tail of the queue and
stops at the first job whose guard holds (the loop body always launches
and breaks once the guard held: the re-checks inside it cannot fail).
Returns that job and the queue tail without it. -/
def findBackfill (s : PState) : List SchedJob → Option (SchedJob × List SchedJob)
  | [] => none
  | j :: rest =>
    if backfill_guard s j then some (j, rest)
    else (findBackfill s rest).map (fun p => (p.1, j :: p.2))

/-- Launch a job: take its `nb_hosts` smallest free hosts, append it to
the running map, and set `current_power` to the value the source
assigns (`backfill_power` or `soon_power`, both computed before the
backfill loop ran). -/
def launchP (s : PState) (j : SchedJob) (new_power : ℚ) (first : Bool) : PState × PLaunch :=
  let alloc := EnergyBud.takeAlloc s.available_res j.nb_hosts
  ({ s with
      available_res := s.available_res \ alloc
      running := s.running ++ [(j, alloc)]
      current_power := new_power },
    { first := first
      job_id := j.job_id
      nb_hosts := j.nb_hosts
      walltime := j.walltime
      free_before := s.available_res.card })

/-- The scheduling block of lines 146-228.  `first_job_can_run` and
`soon_power` are computed before the backfill loop; after at most one
backfill launch, the head job is launched iff `first_job_can_run` was
set — with the free set as the backfill launch left it. -/
def schedP (s : PState) : PState × List PLaunch :=
  match s.jobs with
  | [] => (s, [])
  | first_job :: tail =>
    let soon_power := s.current_power + job_power_delta first_job.nb_hosts
    let first_job_can_run :=
      decide (first_job.nb_hosts ≤ s.available_res.card) && decide (soon_power ≤ s.power_limit)
    let afterBF :=
      match findBackfill s tail with
      | some p =>
        let q := launchP s p.1 (s.current_power + job_power_delta p.1.nb_hosts) false
        ({ q.1 with jobs := first_job :: p.2 }, [q.2])
      | none => (s, ([] : List PLaunch))
    let s1 := afterBF.1
    if first_job_can_run = true then
      let q := launchP s1 first_job soon_power true
      ({ q.1 with jobs := s1.jobs.tail }, afterBF.2 ++ [q.2])
    else (s1, afterBF.2)

/-- One call of `batsim_edc_take_decisions`: ingest events, then run
the scheduling block. -/
def tickP (s : PState) (events : List PEvent) : PState × List PLaunch :=
  schedP (events.foldl handle_eventP s)

/-- The guard claim C2 states, read at the moment of the launch: the
projected platform power after the launch (computed from the free count
the launch saw) is within the power limit, and the free count covers
the width. -/
def launch_moment_guard (H : ℕ) (limit : ℚ) (r : PLaunch) : Prop :=
  P_IDLE_A * ((r.free_before : ℚ) - (r.nb_hosts : ℚ)) +
      P_COMP_A * ((H : ℚ) - (r.free_before : ℚ) + (r.nb_hosts : ℚ)) ≤ limit ∧
  r.nb_hosts ≤ r.free_before

/-- The guard the source actually enforces, read against the state at
the start of the scheduling block (after event ingestion, before any
launch of this tick). -/
def phase_start_guard (s' : PState) (r : PLaunch) : Prop :=
  r.nb_hosts ≤ s'.available_res.card ∧
  s'.current_power + job_power_delta r.nb_hosts ≤ s'.power_limit ∧
  (r.first = false → r.walltime ≤ s'.shadow_time)

lemma findBackfill_sound (s : PState) :
    ∀ (l : List SchedJob) (j : SchedJob) (rest : List SchedJob),
      findBackfill s l = some (j, rest) → backfill_guard s j = true := by
  intro l
  induction l with
  | nil => intro j rest h; simp [findBackfill] at h
  | cons a t ih =>
    intro j rest h
    rw [findBackfill] at h
    by_cases hg : backfill_guard s a
    · rw [if_pos hg] at h
      simp only [Option.some.injEq, Prod.mk.injEq] at h
      rw [← h.1]
      exact hg
    · rw [if_neg hg] at h
      cases hfb : findBackfill s t with
      | none => rw [hfb] at h; simp at h
      | some p =>
        rw [hfb] at h
        simp only [Option.map_some', Option.some.injEq, Prod.mk.injEq] at h
        obtain ⟨hj, -⟩ := h
        exact hj ▸ ih p.1 p.2 (by rw [hfb])

/-- Every launch of a tick passed its guard against the state at the
start of the scheduling block. -/
lemma schedP_guards (s : PState) :
    ∀ r ∈ (schedP s).2, phase_start_guard s r := by
  intro r hr
  unfold schedP at hr
  cases hjobs : s.jobs with
  | nil =>
    rw [hjobs] at hr
    simp at hr
  | cons first_job tail =>
    rw [hjobs] at hr
    dsimp only at hr
    by_cases hfirst : (decide (first_job.nb_hosts ≤ s.available_res.card) &&
        decide (s.current_power + job_power_delta first_job.nb_hosts ≤ s.power_limit)) = true
    · rw [if_pos hfirst] at hr
      rw [Bool.and_eq_true, decide_eq_true_eq, decide_eq_true_eq] at hfirst
      cases hfb : findBackfill s tail with
      | none =>
        rw [hfb] at hr
        simp only [List.nil_append, List.mem_singleton] at hr
        subst hr
        exact ⟨hfirst.1, hfirst.2, by intro h; simp [launchP] at h⟩
      | some p =>
        rw [hfb] at hr
        have hguard := findBackfill_sound s tail p.1 p.2 (by rw [hfb])
        rw [backfill_guard, Bool.and_eq_true, Bool.and_eq_true] at hguard
        obtain ⟨⟨hg1, hg2⟩, hg3⟩ := hguard
        rw [decide_eq_true_eq] at hg1 hg2 hg3
        simp only [List.mem_append, List.mem_singleton] at hr
        rcases hr with hr | hr
        · subst hr
          exact ⟨hg1, hg3, fun _ => hg2⟩
        · subst hr
          exact ⟨hfirst.1, hfirst.2, by intro h; simp [launchP] at h⟩
    · rw [if_neg hfirst] at hr
      cases hfb : findBackfill s tail with
      | none =>
        rw [hfb] at hr
        simp at hr
      | some p =>
        rw [hfb] at hr
        have hguard := findBackfill_sound s tail p.1 p.2 (by rw [hfb])
        rw [backfill_guard, Bool.and_eq_true, Bool.and_eq_true] at hguard
        obtain ⟨⟨hg1, hg2⟩, hg3⟩ := hguard
        rw [decide_eq_true_eq] at hg1 hg2 hg3
        simp only [List.mem_singleton] at hr
        subst hr
        exact ⟨hg1, hg3, fun _ => hg2⟩

end PowerCap

/-!
Claim-side comparison definitions: formulas taken from the claims'
words, to be compared with the embedded source functions.
-/

/-- Claim C4's admission formula taken literally: the job is admitted
iff `E_available + r_nominal * walltime ≥ E_job` and `E_available ≥ 0`
and `free_count() ≥ width`, with `E_job = width * P_comp * walltime`
and `E_available` first reduced by `reserved_energy` for a candidate
other than the reserved job. -/
def energyAdmitClaim (s : EnergyBud.AState) (j : SchedJob) : Prop :=
  (j.nb_hosts : ℚ) * EnergyBud.power_per_host * j.walltime ≤
    (if s.reserved_job_id ≠ j.job_id then s.energy_available - s.reserved_energy
      else s.energy_available) +
      s.energy_budget / EnergyBud.budget_period_duration * j.walltime ∧
  0 ≤ (if s.reserved_job_id ≠ j.job_id then s.energy_available - s.reserved_energy
      else s.energy_available) ∧
  j.nb_hosts ≤ s.available_res.card

/-- The amended C4 admission formula: as the claim states it, but with
the job's required energy computed as the source computes it,
`width * P_comp * (walltime / 3600)` (watt·hours). -/
def energyAdmitAmended (s : EnergyBud.AState) (j : SchedJob) : Prop :=
  (j.nb_hosts : ℚ) * EnergyBud.power_per_host * (j.walltime / 3600) ≤
    (if s.reserved_job_id ≠ j.job_id then s.energy_available - s.reserved_energy
      else s.energy_available) +
      s.energy_budget / EnergyBud.budget_period_duration * j.walltime ∧
  0 ≤ (if s.reserved_job_id ≠ j.job_id then s.energy_available - s.reserved_energy
      else s.energy_available) ∧
  j.nb_hosts ≤ s.available_res.card

/-- Claim C5's reduced rate taken literally:
`max (m * r_nominal) (r_nominal - E_pivot / Δt)` where `m = 0.5` when
more than half of the waiting jobs have estimated energy below half of
the queue's mean energy, else `m = 0.3`. -/
def reserve_claim_rate (s : ReducePCIdle.RState) (job : SchedJob) (start_time current_time : ℚ) :
    ℚ :=
  max (s.energy_rate *
      (if s.jobs.length <
          2 * (s.jobs.filter (fun wj => ReducePCIdle.estimate_job_energy wj <
              (s.jobs.map ReducePCIdle.estimate_job_energy).sum / (s.jobs.length : ℚ) / 2)).length
        then (1 : ℚ)/2 else 3/10))
    (s.energy_rate - ReducePCIdle.estimate_job_energy job / (start_time - current_time))

/-- The condition the source actually uses for `m = 0.5` in
`reserve_energy_reducePC`: more than `⌊|jobs| / 3⌋` waiting jobs other
than the pivot have estimated energy below half the pivot's. -/
def many_small_jobs (s : ReducePCIdle.RState) (pivot : SchedJob) : Prop :=
  s.jobs.length / 3 <
    (s.jobs.filter (fun wj => wj.job_id ≠ pivot.job_id ∧
      ReducePCIdle.estimate_job_energy wj < ReducePCIdle.estimate_job_energy pivot * (1/2))).length

instance (s : ReducePCIdle.RState) (pivot : SchedJob) : Decidable (many_small_jobs s pivot) :=
  inferInstanceAs (Decidable (s.jobs.length / 3 <
    (s.jobs.filter (fun wj => wj.job_id ≠ pivot.job_id ∧
      ReducePCIdle.estimate_job_energy wj <
        ReducePCIdle.estimate_job_energy pivot * (1/2))).length))

/-!
The claims.
-/

/-- C3, counterexample: `allocate_hosts_for_job` is not "`None` exactly
when `free_count() < width`": on the host vector `[free, used, free]`
the free count is `2 ≥ 2`, yet a request of width `2` fails, because
the function only allocates contiguous runs. -/
theorem c3_try_allocate_counterexample :
    ReducePC.allocate_hosts_for_job [false, true, false] 2 = none ∧
    2 ≤ ReducePC.freeCount [false, true, false] := by decide

/-- C3, amended: for a positive width, `allocate_hosts_for_job` returns
exactly the leftmost contiguous run of `width` free hosts (the start
index of the block `[s, s + width)`), and returns nothing exactly when
no contiguous run of `width` free hosts exists — in particular it can
fail although `free_count() ≥ width` (fragmentation). -/
theorem c3_try_allocate_amended (host_used : List Bool) (w : ℕ) (hw : 0 < w) :
    ReducePC.allocate_hosts_for_job host_used w = ReducePC.firstFreeWindow w host_used :=
  ReducePC.allocate_hosts_for_job_eq host_used w hw

/-- Witness for C3's amended theorem at a concrete fragmented vector. -/
theorem c3_try_allocate_amended_witness :
    0 < 2 ∧
    ReducePC.allocate_hosts_for_job [false, true, false, false] 2 =
      ReducePC.firstFreeWindow 2 [false, true, false, false] :=
  ⟨by decide, c3_try_allocate_amended [false, true, false, false] 2 (by decide)⟩

/-- The state used to refute claim C4: the EnergyBud scheduler with two
free hosts, an initialised budget (`energy_budget = 1500.8`), no
reservation, and `E_available = 0`. -/
def exState4 : EnergyBud.AState :=
  { platform_nb_hosts := 2
    available_res := Finset.range 2
    jobs := []
    running := []
    energy_budget := 1500.8
    energy_consumed := 0
    energy_available := 0
    last_energy_update_time := 10
    budget_start_time := 10
    reserved_energy := 0
    reserved_time_end := 0
    reserved_job_id := ""
    g_seed := 0
    g_released := 0
    g_launched := 0 }

/-- The job used to refute claim C4: one host for 3600 s. -/
def exJob4 : SchedJob := { job_id := "j", nb_hosts := 1, walltime := 3600 }

/-- C4, counterexample: with `E_available = 0` the code admits a
one-host job of walltime 3600 s (its required energy is
`1 * P_comp * (3600/3600) = 203.12`, below the lookahead
`r_nominal * 3600 = 9004.8`), while the claim's formula with
`E_job = width * P_comp * walltime = 731232` says it must be rejected —
so "admitted iff the claim's inequality holds" is false. -/
theorem c4_energy_admission_counterexample :
    (exJob4.nb_hosts ≤ exState4.available_res.card ∧
      EnergyBud.has_enough_energy exState4 exJob4 = true) ∧
    ¬ energyAdmitClaim exState4 exJob4 := by
  refine ⟨⟨by decide, ?_⟩, ?_⟩
  · norm_num [EnergyBud.has_enough_energy, EnergyBud.required_energy, exState4, exJob4,
      EnergyBud.power_per_host, EnergyBud.budget_period_duration]
  · norm_num [energyAdmitClaim, exState4, exJob4, EnergyBud.power_per_host,
      EnergyBud.budget_period_duration]

/-- C4, amended: a job is admitted by the eager-launch guard
(`free_count ≥ width` and `has_enough_energy`) iff
`E_available' + r_nominal * walltime ≥ width * P_comp * (walltime/3600)`
and `E_available' ≥ 0` and `free_count ≥ width`, where `E_available'`
is `E_available` reduced by `reserved_energy` for a candidate other
than the reserved job: the claim's rule with the job's required energy
in watt·hours, as the source computes it. -/
theorem c4_energy_admission_amended (s : EnergyBud.AState) (j : SchedJob) :
    (j.nb_hosts ≤ s.available_res.card ∧ EnergyBud.has_enough_energy s j = true) ↔
      energyAdmitAmended s j := by
  unfold EnergyBud.has_enough_energy energyAdmitAmended EnergyBud.required_energy
  simp only [Bool.and_eq_true, decide_eq_true_eq]
  tauto

/-- C9, counterexample: with one free host, width 3, and running jobs
ending at times 5 (one host) and 10 (two hosts), enough hosts are only
available from time 10, but `predict_job_start_time` returns 5 — the
timeline accumulates the free-host count at every completion time
instead of the completing jobs' host counts. -/
theorem c9_expected_start_counterexample :
    ParallelFCFS.predict_job_start_time 0 1 [5, 10] 3 = 5 ∧
    ParallelFCFS.earliest_enough_hosts 0 1 [(5, 1), (10, 2)] 3 = some 10 ∧
    (5 : ℚ) ≠ 10 := by decide

/-- C9, amended: the resource component of the estimate is not the
earliest time at which enough hosts are free.  `predict_job_start_time`
returns `now` when the free count already covers the width; otherwise
it walks the keys `{now} ∪ {completion times > now}` in ascending order
adding the free count — never the completing jobs' host counts — at
every key, returning the `i`-th key where `(i + 2) * |free| ≥ width`
first holds, and `now + 10^9` when there is none. -/
theorem c9_expected_start_amended (now : ℚ) (freeCnt : ℕ) (completions : List ℚ) (width : ℕ) :
    ParallelFCFS.predict_job_start_time now freeCnt completions width =
      if width ≤ freeCnt then now
      else
        (ParallelFCFS.char_walk freeCnt width
          (ParallelFCFS.timeline_keys now completions) 0).getD (now + 1000000000) := by
  unfold ParallelFCFS.predict_job_start_time
  by_cases h : width ≤ freeCnt
  · rw [if_pos h, if_pos h]
  · rw [if_neg h, if_neg h]
    have harith : (0 + 1) * freeCnt = freeCnt := by ring
    have hw := ParallelFCFS.timeline_walk_eq_char_walk freeCnt width
      (ParallelFCFS.timeline_keys now completions) 0
    rw [harith] at hw
    rw [hw]

/-- C10: `has_enough_energy` returns true for every job whenever the
current time lies outside `[budget_start_time, budget_end_time]` (in
both reducePC_IDLE variants), and in the deadlock-prevention variant,
whose `budget_end_time` is initialised to 30 s and never changed, every
job passes the energy check at any time after 30 s regardless of
`available_energy`. -/
theorem c10_budget_window_energy_check :
    (∀ (s : ReducePCIdle.RState) (job : SchedJob) (t : ℚ),
        t < s.budget_start_time ∨ s.budget_end_time < t →
        ReducePCIdle.has_enough_energy s job t = true) ∧
    (∀ (s : ReducePC.BState) (job : SchedJob) (t : ℚ),
        t < s.budget_start_time ∨ s.budget_end_time < t →
        ReducePC.has_enough_energy s job t = true) ∧
    (∀ (s : ReducePCIdle.RState) (job : SchedJob) (t : ℚ),
        s.budget_end_time = 30 → 30 < t →
        ReducePCIdle.has_enough_energy s job t = true) := by
  refine ⟨?_, ?_, ?_⟩
  · intro s job t h
    unfold ReducePCIdle.has_enough_energy
    rw [if_pos (Or.inr h)]
  · intro s job t h
    unfold ReducePC.has_enough_energy
    rw [if_pos (Or.inr h)]
  · intro s job t hend ht
    unfold ReducePCIdle.has_enough_energy
    rw [if_pos (Or.inr (Or.inr (by rw [hend]; exact ht)))]

/-- The deadlock-prevention-variant state used to witness C10: inside
an exhausted budget (`available_energy = 0`) with the initial
`budget_end_time = 30`. -/
def exState10 : ReducePCIdle.RState :=
  { energy_budget_active := true
    budget_start_time := 0
    budget_end_time := 30
    energy_rate := 100
    reduced_energy_rate := 100
    reservation_end_time := 0
    has_active_reservation := false
    available_energy := 0
    consecutive_scheduling_failures := 0
    max_failures_before_override := 3
    emergency_mode := false
    running := []
    jobs := [] }

/-- The 600 s-variant state used to witness C10. -/
def exState10b : ReducePC.BState :=
  { energy_budget_active := true
    budget_start_time := 5
    budget_end_time := 600
    last_update_time := 0
    available_energy := 0
    consumed_energy := 0
    energy_rate := 100
    reduced_energy_rate := 100
    reservation_end_time := 0
    has_active_reservation := false
    platform_nb_hosts := 2
    sum_running_nb_hosts := 0
    used_hosts_count := 0 }

/-- Witness for C10 at concrete states and times. -/
theorem c10_budget_window_witness :
    ReducePCIdle.has_enough_energy exState10 exJob4 31 = true ∧
    ReducePC.has_enough_energy exState10b exJob4 3 = true ∧
    ReducePCIdle.has_enough_energy exState10 exJob4 40 = true :=
  ⟨c10_budget_window_energy_check.1 exState10 exJob4 31 (Or.inr (by decide)),
    c10_budget_window_energy_check.2.1 exState10b exJob4 3 (Or.inl (by decide)),
    c10_budget_window_energy_check.2.2 exState10 exJob4 40 (by decide) (by decide)⟩

/-- C1: for every event trace with pairwise distinct submitted job ids
(the protocol guarantees ids unique per simulation), every state the
EnergyBud scheduler reaches from the `SimulationBegins` state satisfies
the partition invariant — the free-host set and the allocations of the
running jobs are pairwise disjoint and together equal `{0, …, H-1}`. -/
theorem c1_free_hosts_running_partition (H : ℕ)
    (trace : List (ℚ × List EnergyBud.AEvent))
    (h : (EnergyBud.traceSubIds trace).Nodup) :
    EnergyBud.PartInv (EnergyBud.runTraceA (EnergyBud.initA H) trace) := by
  have hInv := EnergyBud.runTraceA_Inv trace (EnergyBud.initA H) [] (EnergyBud.Inv_initA H) h
    (fun i _ hmem => by simp at hmem)
  exact hInv.1

/-- Witness for C1 at a concrete three-job trace. -/
theorem c1_partition_witness :
    (EnergyBud.traceSubIds
        [((0 : ℚ), [EnergyBud.AEvent.submit ("j0") 1 5, EnergyBud.AEvent.submit ("j1") 2 10]),
          (1, [EnergyBud.AEvent.submit ("j2") 1 50])]).Nodup ∧
    EnergyBud.PartInv (EnergyBud.runTraceA (EnergyBud.initA 2)
        [((0 : ℚ), [EnergyBud.AEvent.submit ("j0") 1 5, EnergyBud.AEvent.submit ("j1") 2 10]),
          (1, [EnergyBud.AEvent.submit ("j2") 1 50])]) :=
  ⟨by decide,
    c1_free_hosts_running_partition 2
      [((0 : ℚ), [EnergyBud.AEvent.submit ("j0") 1 5, EnergyBud.AEvent.submit ("j1") 2 10]),
        (1, [EnergyBud.AEvent.submit ("j2") 1 50])] (by decide)⟩

/-- The tick used to refute claim C2: `SimulationBegins` with two
hosts, then `j1` (2 hosts, 10 s) and `j2` (1 host, 5 s) submitted in
the same tick. -/
def exEvents2 : List PowerCap.PEvent :=
  [PowerCap.PEvent.simBegins 2, PowerCap.PEvent.submit ("j1") 2 10,
    PowerCap.PEvent.submit ("j2") 1 5]

/-- C2, counterexample: in the tick above the backfill launch of `j2`
precedes the head launch of `j1` and takes one of the two free hosts;
`j1` is then launched with one free host while its width is two, so the
claim's guard — evaluated at the moment of the launch — is violated
(its `free_count() ≥ width` conjunct fails). -/
theorem c2_powercap_guard_counterexample :
    ¬ (∀ r ∈ (PowerCap.tickP PowerCap.initP exEvents2).2,
        PowerCap.launch_moment_guard
          (PowerCap.tickP PowerCap.initP exEvents2).1.platform_nb_hosts
          (PowerCap.tickP PowerCap.initP exEvents2).1.power_limit r) := by
  norm_num [PowerCap.tickP, PowerCap.schedP, PowerCap.handle_eventP, PowerCap.findBackfill,
    PowerCap.backfill_guard, PowerCap.launchP, PowerCap.initP, PowerCap.launch_moment_guard,
    PowerCap.job_power_delta, exEvents2,
    PowerCap.P_IDLE_A, PowerCap.P_COMP_A, PowerCap.P_COMP_M, PowerCap.pourcentage_budget,
    show EnergyBud.takeAlloc (Finset.range 2) 1 = {0} from by decide,
    show (Finset.range 2 : Finset ℕ) \ {0} = {1} from by decide,
    show EnergyBud.takeAlloc ({1} : Finset ℕ) 2 = {1} from by decide,
    show ({1} : Finset ℕ) \ {1} = ∅ from by decide,
    show (Finset.range 2).card = 2 from by decide,
    show ({1} : Finset ℕ).card = 1 from by decide]

/-- C2, amended: the launch guards of the PowerCap scheduler are
evaluated against the state at the start of the tick's scheduling
block, before any launch of the tick: every launch record of a tick
satisfies `free_count ≥ width` and
`current_power + width * (P_COMP_A - P_IDLE_A) ≤ power_limit` — and,
for a backfill launch, `walltime ≤ shadow_time` — with respect to that
phase-start state.  (At the moment of the head job's launch the guard
may no longer hold, as the counterexample shows.) -/
theorem c2_powercap_guard_amended (s : PowerCap.PState) (events : List PowerCap.PEvent)
    (r : PowerCap.PLaunch) (hr : r ∈ (PowerCap.tickP s events).2) :
    PowerCap.phase_start_guard (events.foldl PowerCap.handle_eventP s) r :=
  PowerCap.schedP_guards (events.foldl PowerCap.handle_eventP s) r hr

/-- Witness for C2's amended theorem: the backfill launch record of the
counterexample tick satisfies the phase-start guard. -/
theorem c2_powercap_guard_amended_witness :
    PowerCap.phase_start_guard (exEvents2.foldl PowerCap.handle_eventP PowerCap.initP)
      { first := false, job_id := "j2", nb_hosts := 1, walltime := 5, free_before := 2 } :=
  c2_powercap_guard_amended PowerCap.initP exEvents2
    { first := false, job_id := "j2", nb_hosts := 1, walltime := 5, free_before := 2 }
    (by norm_num [PowerCap.tickP, PowerCap.schedP, PowerCap.handle_eventP,
      PowerCap.findBackfill, PowerCap.backfill_guard, PowerCap.launchP, PowerCap.initP,
      PowerCap.job_power_delta, exEvents2,
      PowerCap.P_IDLE_A, PowerCap.P_COMP_A, PowerCap.P_COMP_M, PowerCap.pourcentage_budget,
      show EnergyBud.takeAlloc (Finset.range 2) 1 = {0} from by decide,
      show (Finset.range 2 : Finset ℕ) \ {0} = {1} from by decide,
      show EnergyBud.takeAlloc ({1} : Finset ℕ) 2 = {1} from by decide,
      show ({1} : Finset ℕ) \ {1} = ∅ from by decide,
      show (Finset.range 2).card = 2 from by decide,
      show ({1} : Finset ℕ).card = 1 from by decide])

/-- The state used to refute claim C5: nominal rate 100 W, a pivot of
energy 20312 J and two waiting jobs of energy 8124.8 J each. -/
def exState5 : ReducePCIdle.RState :=
  { energy_budget_active := true
    budget_start_time := 0
    budget_end_time := 30
    energy_rate := 100
    reduced_energy_rate := 100
    reservation_end_time := 0
    has_active_reservation := false
    available_energy := 0
    consecutive_scheduling_failures := 0
    max_failures_before_override := 3
    emergency_mode := false
    running := []
    jobs := [⟨"p", 1, 100⟩, ⟨"a", 1, 40⟩, ⟨"b", 1, 40⟩] }

/-- The pivot used to refute claim C5. -/
def exPivot5 : SchedJob := ⟨"p", 1, 100⟩

/-- C5, counterexample: for the queue above, no waiting job is below
half of the queue's mean energy (mean 12187.2, half 6093.6), so the
claim's rule gives `m = 0.3` and `r_current = 30`; the code counts the
jobs below half of the *pivot's* energy (both, exceeding `⌊3/3⌋ = 1`),
uses `m = 0.5`, and sets `r_current = 50`. -/
theorem c5_reducepc_reservation_counterexample :
    (ReducePCIdle.reserve_energy_reducePC exState5 exPivot5 5 0).reduced_energy_rate = 50 ∧
    reserve_claim_rate exState5 exPivot5 5 0 = 30 ∧ (50 : ℚ) ≠ 30 := by
  refine ⟨?_, ?_, by norm_num⟩
  · norm_num [ReducePCIdle.reserve_energy_reducePC, ReducePCIdle.estimate_job_energy,
      exState5, exPivot5, P_comp_est, List.filter,
      show "p" ≠ "p" ↔ False from by simp, show ("a" : String) ≠ "p" ↔ True from by simp,
      show ("b" : String) ≠ "p" ↔ True from by simp]
  · norm_num [reserve_claim_rate, ReducePCIdle.estimate_job_energy, exState5, exPivot5,
      P_comp_est, List.filter]

/-- C5, amended: inside the budget window, with
`Δt = expected_start - now > 0`, `reserve_energy_reducePC` sets
`r_current = max (m * r_nominal) (r_nominal - E_pivot / Δt)` and
`reservation_end = expected_start`, where `m = 0.5` when more than
`⌊n/3⌋` of the `n` waiting jobs other than the pivot have estimated
energy below half the *pivot's* energy, else `m = 0.3` (the 600 s
variant always uses `m = 0.3`); no reservation is installed when
`expected_start ≤ now`. -/
theorem c5_reducepc_reservation_amended :
    (∀ (s : ReducePCIdle.RState) (job : SchedJob) (start_time current_time : ℚ),
      s.energy_budget_active = true → s.budget_start_time ≤ current_time →
      current_time ≤ s.budget_end_time → current_time < start_time →
      (ReducePCIdle.reserve_energy_reducePC s job start_time current_time).reduced_energy_rate =
        max (s.energy_rate * (if many_small_jobs s job then (1 : ℚ)/2 else 3/10))
          (s.energy_rate -
            ReducePCIdle.estimate_job_energy job / (start_time - current_time)) ∧
      (ReducePCIdle.reserve_energy_reducePC s job start_time
          current_time).reservation_end_time = start_time ∧
      (ReducePCIdle.reserve_energy_reducePC s job start_time
          current_time).has_active_reservation = true) ∧
    (∀ (s : ReducePCIdle.RState) (job : SchedJob) (start_time current_time : ℚ),
      start_time ≤ current_time →
      ReducePCIdle.reserve_energy_reducePC s job start_time current_time = s) := by
  constructor
  · intro s job st ct hact h1 h2 h3
    have hcond : ¬ (s.energy_budget_active = false ∨ ct < s.budget_start_time ∨
        s.budget_end_time < ct) := by
      intro hor
      rcases hor with h | h | h
      · rw [hact] at h
        exact Bool.noConfusion h
      · linarith
      · linarith
    unfold ReducePCIdle.reserve_energy_reducePC
    rw [if_neg hcond, if_pos (by linarith : (0 : ℚ) < st - ct)]
    refine ⟨?_, rfl, rfl⟩
    unfold many_small_jobs
    rfl
  · intro s job st ct h
    unfold ReducePCIdle.reserve_energy_reducePC
    split
    · rfl
    · rw [if_neg (by linarith : ¬ (0 : ℚ) < st - ct)]

/-- Witness for C5's amended theorem at the concrete state of the
counterexample, for both an installing and a skipped reservation. -/
theorem c5_reducepc_reservation_amended_witness :
    ((ReducePCIdle.reserve_energy_reducePC exState5 exPivot5 5 0).reduced_energy_rate =
        max (exState5.energy_rate * (if many_small_jobs exState5 exPivot5 then (1 : ℚ)/2
            else 3/10))
          (exState5.energy_rate - ReducePCIdle.estimate_job_energy exPivot5 / (5 - 0)) ∧
      (ReducePCIdle.reserve_energy_reducePC exState5 exPivot5 5 0).reservation_end_time = 5 ∧
      (ReducePCIdle.reserve_energy_reducePC exState5 exPivot5 5 0).has_active_reservation =
        true) ∧
    ReducePCIdle.reserve_energy_reducePC exState5 exPivot5 0 5 = exState5 :=
  ⟨c5_reducepc_reservation_amended.1 exState5 exPivot5 5 0 rfl (by norm_num [exState5])
      (by norm_num [exState5]) (by norm_num),
    c5_reducepc_reservation_amended.2 exState5 exPivot5 0 5 (by norm_num)⟩

/-- The first tick of the trace used to refute claim C6: two hosts,
`j0` (1 host, 5 s) and `j1` (2 hosts, 10 s) submitted at time 0.  The
tick launches `j0` and installs a reservation for `j1` ending at 10. -/
def exTrace6 : List (ℚ × List EnergyBud.AEvent) :=
  [(0, [EnergyBud.AEvent.submit ("j0") 1 5, EnergyBud.AEvent.submit ("j1") 2 10])]

/-- C6, counterexample: at time 1, while the reservation for `j1`
(ending at 10) is held, the phase-1 eager sweep launches the newly
submitted `j2` (1 host, walltime 50) without any `can_backfill` check:
the tick emits a launch record with an active reservation
(`res_id_at ≠ ""`) whose projected end `1 + 50` exceeds the
reservation end 10. -/
theorem c6_backfill_window_counterexample :
    ¬ (∀ r ∈ (EnergyBud.tickA (EnergyBud.runTraceA (EnergyBud.initA 2) exTrace6) 1
          [EnergyBud.AEvent.submit ("j2") 1 50]).2,
        r.res_id_at ≠ "" → 1 + r.walltime ≤ r.res_end_at) := by
  norm_num [exTrace6, EnergyBud.runTraceA, EnergyBud.tickA, EnergyBud.handle_event,
    EnergyBud.update_energy, EnergyBud.phase1, EnergyBud.phase2, EnergyBud.phase3,
    EnergyBud.phase4, EnergyBud.allocate_and_launch, EnergyBud.reserve_for_first_job,
    EnergyBud.cancel_reservations, EnergyBud.complete_release, EnergyBud.has_enough_energy,
    EnergyBud.can_backfill, EnergyBud.required_energy, EnergyBud.initA,
    EnergyBud.max_energy_budget, EnergyBud.percentage_budget, EnergyBud.budget_period_duration,
    EnergyBud.monitoring_interval, EnergyBud.power_per_host, EnergyBud.idle_power_per_host,
    show EnergyBud.takeAlloc (Finset.range 2) 1 = {0} from by decide,
    show (Finset.range 2 : Finset ℕ) \ {0} = {1} from by decide,
    show EnergyBud.takeAlloc ({1} : Finset ℕ) 1 = {1} from by decide,
    show ({1} : Finset ℕ) \ {1} = ∅ from by decide,
    show (Finset.range 2).card = 2 from by decide,
    show ({1} : Finset ℕ).card = 1 from by decide,
    show ("" : String) ≠ "j0" from by decide, show ("j0" : String) ≠ "" from by decide,
    show ("" : String) ≠ "j1" from by decide, show ("j1" : String) ≠ "" from by decide,
    show ("" : String) ≠ "j2" from by decide, show ("j2" : String) ≠ "" from by decide,
    show ("j0" : String) ≠ "j1" from by decide, show ("j1" : String) ≠ "j0" from by decide,
    show ("j0" : String) ≠ "j2" from by decide, show ("j2" : String) ≠ "j0" from by decide,
    show ("j1" : String) ≠ "j2" from by decide, show ("j2" : String) ≠ "j1" from by decide]

/-- C6, amended: the `now + walltime ≤ reservation_end` window check
protects exactly the launches of the backfill loop (phase 3, which only
runs while a reservation is held): every launch record that loop emits
satisfies `now + walltime ≤ res_end_at`.  Launches of the eager sweep
(phase 1), of the head-of-queue rule (phase 2) and of the reserved job
itself (phase 4) carry no such guarantee, as the counterexample
shows. -/
theorem c6_backfill_window_amended (s : EnergyBud.AState) (now : ℚ)
    (evs : List EnergyBud.AEvent) (r : EnergyBud.LaunchRec)
    (hr : r ∈ (EnergyBud.tickA s now evs).2) (hph : r.phase = 3) :
    now + r.walltime ≤ r.res_end_at := by
  rw [EnergyBud.tickA_records] at hr
  simp only [List.mem_append] at hr
  rcases hr with ((hr | hr) | hr) | hr
  · have h1 := EnergyBud.phase1_rec_phase _ _ r hr
    omega
  · have h2 := EnergyBud.phase2_rec_phase _ now r hr
    omega
  · unfold EnergyBud.tickP3 at hr
    split at hr
    · case isTrue hres =>
      exact (EnergyBud.phase3_rec_bound now (EnergyBud.tickS3 s now evs).jobs
        (EnergyBud.tickS3 s now evs) hres r hr).2
    · simp at hr
  · have h4 := EnergyBud.phase4_rec_phase _ r hr
    omega

/-- The state used to witness C6's amended theorem: `j0` running on
host 0, a queue `j1` (2 hosts, 10 s), `j2` (1 host, 4 s), and a huge
`reserved_energy` so that the phase-1 sweep launches nothing. -/
def exState6 : EnergyBud.AState :=
  { platform_nb_hosts := 2
    available_res := {1}
    jobs := [⟨"j1", 2, 10⟩, ⟨"j2", 1, 4⟩]
    running := [(⟨"j0", 1, 100⟩, {0})]
    energy_budget := 1500.8
    energy_consumed := 0
    energy_available := 100
    last_energy_update_time := 5
    budget_start_time := 5
    reserved_energy := 1000000
    reserved_time_end := 0
    reserved_job_id := ""
    g_seed := 0
    g_released := 0
    g_launched := 0 }

/-- The phase-3 launch record the tick at time 5 emits from
`exState6`: `j2` backfilled while `j1`'s reservation (ending 15) is
held. -/
def exRec6 : EnergyBud.LaunchRec :=
  { phase := 3
    job_id := "j2"
    nb_hosts := 1
    walltime := 4
    free_before := 1
    res_id_at := "j1"
    res_end_at := 15 }

/-- Witness for C6's amended theorem at a concrete phase-3 launch. -/
theorem c6_backfill_window_amended_witness :
    (5 : ℚ) + exRec6.walltime ≤ exRec6.res_end_at :=
  c6_backfill_window_amended exState6 5 [] exRec6
    (by norm_num [exState6, exRec6, EnergyBud.tickA, EnergyBud.handle_event,
      EnergyBud.update_energy, EnergyBud.phase1, EnergyBud.phase2, EnergyBud.phase3,
      EnergyBud.phase4, EnergyBud.allocate_and_launch, EnergyBud.reserve_for_first_job,
      EnergyBud.cancel_reservations, EnergyBud.complete_release, EnergyBud.has_enough_energy,
      EnergyBud.can_backfill, EnergyBud.required_energy,
      EnergyBud.max_energy_budget, EnergyBud.percentage_budget,
      EnergyBud.budget_period_duration, EnergyBud.monitoring_interval,
      EnergyBud.power_per_host, EnergyBud.idle_power_per_host,
      show EnergyBud.takeAlloc ({1} : Finset ℕ) 1 = {1} from by decide,
      show ({1} : Finset ℕ) \ {1} = ∅ from by decide,
      show ({1} : Finset ℕ).card = 1 from by decide,
      show ("" : String) ≠ "j1" from by decide, show ("j1" : String) ≠ "" from by decide,
      show ("" : String) ≠ "j2" from by decide, show ("j2" : String) ≠ "" from by decide,
      show ("j1" : String) ≠ "j2" from by decide, show ("j2" : String) ≠ "j1" from by decide])
    rfl

/-- The 600 s-variant state used to refute claim C7: one job of one
host running on a two-host platform, rate 400 W, last update at 10. -/
def exState7 : ReducePC.BState :=
  { energy_budget_active := true
    budget_start_time := 0
    budget_end_time := 1000000
    last_update_time := 10
    available_energy := 5000
    consumed_energy := 0
    energy_rate := 400
    reduced_energy_rate := 400
    reservation_end_time := 0
    has_active_reservation := false
    platform_nb_hosts := 2
    sum_running_nb_hosts := 1
    used_hosts_count := 1 }

/-- C7, counterexample: over Δ = 10 s the claim predicts
`E_available = 5000 + 400·10 - (1·203.12 + 1·100)·10 = 5968.8`; the
code leaves `E_available = 9000` — the drawn energy is added to
`consumed_energy` only and never subtracted from `available_energy`. -/
theorem c7_tick_update_counterexample :
    (ReducePC.update_available_energy exState7 20).available_energy = 9000 ∧
    (ReducePC.update_available_energy exState7 20).consumed_energy = 3031.2 ∧
    (ReducePC.update_available_energy exState7 20).available_energy ≠
      exState7.available_energy +
        exState7.reduced_energy_rate * (20 - exState7.last_update_time) -
        ((exState7.sum_running_nb_hosts : ℚ) * P_comp_est +
            ((exState7.platform_nb_hosts : ℚ) - (exState7.used_hosts_count : ℚ)) * P_idle_est) *
          (20 - exState7.last_update_time) := by
  norm_num [ReducePC.update_available_energy, exState7, P_comp_est, P_idle_est]

/-- C7, amended: inside the budget window, with
`last_update ≥ budget_start` and `Δ = now - last_update > 0`, the 600 s
variant's `update_available_energy` adds exactly `r·Δ` to
`E_available` and adds the drawn energy
`(|busy|·P_comp + |idle|·P_idle)·Δ` (watt·seconds, no conversion
factor) to `E_consumed` — it never subtracts the drawn energy from
`E_available`; the first variant's `update_energy`, past its seeding
tick, updates a single `E_available` counter by
`E_available += budget/period·Δ - (|busy|·P_comp + |idle|·P_idle)·(Δ/3600)`,
i.e. with a spurious 1/3600 conversion factor on the drawn energy,
which it also accumulates into `E_consumed`. -/
theorem c7_tick_update_amended :
    (∀ (s : ReducePC.BState) (t : ℚ),
      s.energy_budget_active = true → s.budget_start_time ≤ t → t ≤ s.budget_end_time →
      s.budget_start_time ≤ s.last_update_time → s.last_update_time < t →
      (ReducePC.update_available_energy s t).available_energy =
        s.available_energy + s.reduced_energy_rate * (t - s.last_update_time) ∧
      (ReducePC.update_available_energy s t).consumed_energy =
        s.consumed_energy +
          ((s.sum_running_nb_hosts : ℚ) * P_comp_est * (t - s.last_update_time) +
            ((((s.platform_nb_hosts : ℤ) - (s.used_hosts_count : ℤ) : ℤ) : ℚ)) * P_idle_est *
              (t - s.last_update_time))) ∧
    (∀ (s : EnergyBud.AState) (t : ℚ),
      s.budget_start_time ≠ 0 → s.last_energy_update_time < t →
      (EnergyBud.update_energy s t).energy_available =
        s.energy_available +
          s.energy_budget / EnergyBud.budget_period_duration * (t - s.last_energy_update_time) -
          (((s.platform_nb_hosts : ℚ) - (s.available_res.card : ℚ)) *
              EnergyBud.power_per_host +
            (s.available_res.card : ℚ) * EnergyBud.idle_power_per_host) *
            ((t - s.last_energy_update_time) / 3600) ∧
      (EnergyBud.update_energy s t).energy_consumed =
        s.energy_consumed +
          (((s.platform_nb_hosts : ℚ) - (s.available_res.card : ℚ)) *
              EnergyBud.power_per_host +
            (s.available_res.card : ℚ) * EnergyBud.idle_power_per_host) *
            ((t - s.last_energy_update_time) / 3600)) := by
  constructor
  · intro s t hact h1 h2 h4 h5
    simp only [ReducePC.update_available_energy]
    rw [if_neg (by simp [hact]), if_pos ⟨h1, h2⟩, if_neg (not_lt.mpr h4),
      if_pos (by linarith : (0 : ℚ) < t - s.last_update_time)]
    refine ⟨?_, ?_⟩ <;> split <;> rfl
  · intro s t hb h5
    simp only [EnergyBud.update_energy]
    rw [if_neg hb, if_neg (by linarith : ¬ t - s.last_energy_update_time ≤ 0)]
    exact ⟨rfl, rfl⟩

/-- The EnergyBud state used in C7's witness, past its seeding tick. -/
def exState7a : EnergyBud.AState :=
  { platform_nb_hosts := 2
    available_res := {1}
    jobs := []
    running := [(⟨"j0", 1, 100⟩, {0})]
    energy_budget := 1500.8
    energy_consumed := 0
    energy_available := 100
    last_energy_update_time := 10
    budget_start_time := 10
    reserved_energy := 0
    reserved_time_end := 0
    reserved_job_id := ""
    g_seed := 0
    g_released := 0
    g_launched := 0 }

/-- Witness for C7's amended theorem at the concrete states. -/
theorem c7_tick_update_amended_witness :
    ((ReducePC.update_available_energy exState7 20).available_energy =
        exState7.available_energy +
          exState7.reduced_energy_rate * (20 - exState7.last_update_time) ∧
      (ReducePC.update_available_energy exState7 20).consumed_energy =
        exState7.consumed_energy +
          ((exState7.sum_running_nb_hosts : ℚ) * P_comp_est * (20 - exState7.last_update_time) +
            ((((exState7.platform_nb_hosts : ℤ) - (exState7.used_hosts_count : ℤ) : ℤ) : ℚ)) *
              P_idle_est * (20 - exState7.last_update_time))) ∧
    ((EnergyBud.update_energy exState7a 20).energy_available =
        exState7a.energy_available +
          exState7a.energy_budget / EnergyBud.budget_period_duration *
            (20 - exState7a.last_energy_update_time) -
          (((exState7a.platform_nb_hosts : ℚ) - (exState7a.available_res.card : ℚ)) *
              EnergyBud.power_per_host +
            (exState7a.available_res.card : ℚ) * EnergyBud.idle_power_per_host) *
            ((20 - exState7a.last_energy_update_time) / 3600) ∧
      (EnergyBud.update_energy exState7a 20).energy_consumed =
        exState7a.energy_consumed +
          (((exState7a.platform_nb_hosts : ℚ) - (exState7a.available_res.card : ℚ)) *
              EnergyBud.power_per_host +
            (exState7a.available_res.card : ℚ) * EnergyBud.idle_power_per_host) *
            ((20 - exState7a.last_energy_update_time) / 3600)) :=
  ⟨c7_tick_update_amended.1 exState7 20 rfl (by norm_num [exState7]) (by norm_num [exState7])
      (by norm_num [exState7]) (by norm_num [exState7]),
    c7_tick_update_amended.2 exState7a 20 (by norm_num [exState7a]) (by norm_num [exState7a])⟩

/-- The trace used to refute claim C8: one job of one host and
walltime 3600 s submitted at time 0 on a two-host platform. -/
def exTrace8 : List (ℚ × List EnergyBud.AEvent) :=
  [(0, [EnergyBud.AEvent.submit ("j") 1 3600])]

/-- C8, counterexample: launching a job debits its `required_energy`
upfront from `E_available` without crediting any other counter, so
`E_consumed + E_available` drops below `E_initial + E_released` as soon
as a job is launched: after the single tick the left side is `1297.68`
and the right side `1500.8`. -/
theorem c8_energy_conservation_counterexample :
    (EnergyBud.runTraceA (EnergyBud.initA 2) exTrace8).energy_consumed +
        (EnergyBud.runTraceA (EnergyBud.initA 2) exTrace8).energy_available ≠
      (EnergyBud.runTraceA (EnergyBud.initA 2) exTrace8).g_seed +
        (EnergyBud.runTraceA (EnergyBud.initA 2) exTrace8).g_released := by
  norm_num [exTrace8, EnergyBud.runTraceA, EnergyBud.tickA, EnergyBud.handle_event,
    EnergyBud.update_energy, EnergyBud.phase1, EnergyBud.phase2, EnergyBud.phase3,
    EnergyBud.phase4, EnergyBud.allocate_and_launch, EnergyBud.reserve_for_first_job,
    EnergyBud.cancel_reservations, EnergyBud.complete_release, EnergyBud.has_enough_energy,
    EnergyBud.can_backfill, EnergyBud.required_energy, EnergyBud.initA,
    EnergyBud.max_energy_budget, EnergyBud.percentage_budget, EnergyBud.budget_period_duration,
    EnergyBud.monitoring_interval, EnergyBud.power_per_host, EnergyBud.idle_power_per_host,
    show EnergyBud.takeAlloc (Finset.range 2) 1 = {0} from by decide,
    show (Finset.range 2 : Finset ℕ) \ {0} = {1} from by decide,
    show (Finset.range 2).card = 2 from by decide,
    show ({1} : Finset ℕ).card = 1 from by decide,
    show ("" : String) ≠ "j" from by decide, show ("j" : String) ≠ "" from by decide]

/-- C8, amended: the conserved quantity also subtracts the energy
debited upfront by launches: in every reachable state of the EnergyBud
scheduler, `E_consumed + E_available = E_initial + E_released - E_debited`,
where `E_initial` is the seed installed by the first `update_energy`
call, `E_released` the accumulated released energy and `E_debited` the
accumulated `required_energy` of all launches (completions release
hosts but move no energy; the instrumentation fields `g_seed`,
`g_released`, `g_launched` record these quantities exactly where the
source updates the counters, and are never read back by the machine). -/
theorem c8_energy_conservation_amended (H : ℕ)
    (trace : List (ℚ × List EnergyBud.AEvent)) :
    EnergyBud.EInv (EnergyBud.runTraceA (EnergyBud.initA H) trace) :=
  EnergyBud.EInv_runTraceA trace (EnergyBud.initA H) (EnergyBud.EInv_initA H)

end BatsimPrj
